import Mathlib

set_option linter.unusedVariables false

/-!
Shallow embedding of the repository: a directed-graph container with
tombstone-based deletion (src/graph.rs) and Karzanov's layered max-flow
algorithm (src/karzanov.rs).

Modelling conventions:
* `u32` / `usize` values are `Nat`.  A `u32` subtraction, which panics on
  underflow in a debug build, is `checkedSub` and yields `Err.underflow`.
* Rust `Vec` is `List`; a `Vec` used as a LIFO stack is a `List` whose
  push is cons and whose pop takes the head.
* Every `panic!` / failed `unwrap` / failed `HashMap` index is a constructor
  of `Err`, and fallible functions return `Except Err _`.
* The lazy generator methods `from_node` / `into_node` are finite list
  producers; the "Node does not exist" panic they raise is checked by the
  callers that can reach it.
* The breadth-first loop and the fixpoint loop of `maxflow` are written with
  explicit fuel; running out of fuel is the distinguished error
  `Err.outOfFuel` (never produced when the fuel bound is large enough).
* `Vec::sort_by` (a stable sort; insertion sort for the short slices this
  program produces) is modelled by the stable insertion sort `isort`.
-/

inductive Err where
  | nodeMissing
  | absent
  | unsolvable
  | inconsistent
  | underflow
  | keyMissing
  | outOfFuel
deriving DecidableEq

instance {ε α : Type} [DecidableEq ε] [DecidableEq α] :
    DecidableEq (Except ε α) := fun x y =>
  match x, y with
  | .error e, .error f =>
      match decEq e f with
      | .isTrue h => .isTrue (congrArg Except.error h)
      | .isFalse h => .isFalse (fun c => h (by cases c; rfl))
  | .error _, .ok _ => .isFalse (fun c => Except.noConfusion c)
  | .ok _, .error _ => .isFalse (fun c => Except.noConfusion c)
  | .ok a, .ok b =>
      match decEq a b with
      | .isTrue h => .isTrue (congrArg Except.ok h)
      | .isFalse h => .isFalse (fun c => h (by cases c; rfl))

/-- src/graph.rs `ArcConnection`: the fixed (from, into) endpoint pair of an
arc.  `from` is a Lean keyword, so the field is called `frm`. -/
structure ArcConnection where
  frm : Nat
  into : Nat
deriving DecidableEq

instance : Inhabited ArcConnection := ⟨⟨0, 0⟩⟩

/-- src/graph.rs `GraphNetwork<N, A>`. -/
structure GraphNetwork (N A : Type) where
  node_data : List (Option N)
  arcs_into : List (List Nat)
  arcs_from : List (List Nat)
  arc_data : List (Option A)
  arc_connections : List ArcConnection
deriving DecidableEq

variable {N A : Type}

/-- src/graph.rs `GraphNetwork::new`. -/
def GraphNetwork.new : GraphNetwork N A := ⟨[], [], [], [], []⟩

/-- src/graph.rs `is_node_in`. -/
def is_node_in (g : GraphNetwork N A) (node : Nat) : Bool :=
  decide (node < g.node_data.length) && (g.node_data.getD node none).isSome

/-- src/graph.rs `is_arc_in`: scans `arcs_from[from]` for a live arc id that
also occurs in `arcs_into[into]`. -/
def is_arc_in (g : GraphNetwork N A) (frm into : Nat) : Bool :=
  if ¬ (is_node_in g frm && is_node_in g into) then false
  else (g.arcs_from.getD frm []).any (fun arc =>
    (g.arc_data.getD arc none).isSome && (g.arcs_into.getD into []).contains arc)

/-- src/graph.rs `data_of_node` (indexing out of range, which panics in Rust,
is modelled as `none`; engine call sites only index in range). -/
def data_of_node (g : GraphNetwork N A) (node : Nat) : Option N :=
  g.node_data.getD node none

/-- src/graph.rs `data_of_arc`. -/
def data_of_arc (g : GraphNetwork N A) (arc : Nat) : Option A :=
  g.arc_data.getD arc none

/-- src/graph.rs `from_node`: the finite sequence of (destination node id,
arc id) pairs of live arcs in `arcs_from[from]`, in adjacency-log order.
The "Node does not exist" panic is checked at the call sites. -/
def from_node (g : GraphNetwork N A) (frm : Nat) : List (Nat × Nat) :=
  (g.arcs_from.getD frm []).filterMap (fun arc_id =>
    if (g.arc_data.getD arc_id none).isSome then
      some ((g.arc_connections.getD arc_id default).into, arc_id)
    else none)

/-- src/graph.rs `into_node`: the finite sequence of (source node id, arc id)
pairs of live arcs in `arcs_into[into]`, in adjacency-log order. -/
def into_node (g : GraphNetwork N A) (into : Nat) : List (Nat × Nat) :=
  (g.arcs_into.getD into []).filterMap (fun arc_id =>
    if (g.arc_data.getD arc_id none).isSome then
      some ((g.arc_connections.getD arc_id default).frm, arc_id)
    else none)

/-- src/graph.rs `add_node`: appends the payload and fresh adjacency logs,
returning the new id (= old node count). -/
def add_node (g : GraphNetwork N A) (data : N) : Nat × GraphNetwork N A :=
  (g.node_data.length,
   { g with node_data := g.node_data ++ [some data],
            arcs_into := g.arcs_into ++ [[]],
            arcs_from := g.arcs_from ++ [[]] })

/-- src/graph.rs `add_nodes`. -/
def add_nodes (g : GraphNetwork N A) (data : List N) : GraphNetwork N A :=
  data.foldl (fun g d => (add_node g d).2) g

/-- src/graph.rs `remove_node`: no-op on an absent node; otherwise clears the
node's own adjacency logs and tombstones the payload slot. -/
def remove_node (g : GraphNetwork N A) (node : Nat) :
    Option N × GraphNetwork N A :=
  if ¬ is_node_in g node then (none, g)
  else (g.node_data.getD node none,
    { g with arcs_into := g.arcs_into.set node [],
             arcs_from := g.arcs_from.set node [],
             node_data := g.node_data.set node none })

/-- src/graph.rs `connect`: panics ("Node does not exist") unless both
endpoints are live; otherwise appends the arc to the global tables and to
both adjacency logs. -/
def connect (g : GraphNetwork N A) (frm into : Nat) (value : A) :
    Except Err (Nat × GraphNetwork N A) :=
  if ¬ (is_node_in g frm && is_node_in g into) then .error .nodeMissing
  else
    .ok (g.arc_data.length,
      { g with
        arc_data := g.arc_data ++ [some value],
        arc_connections := g.arc_connections ++ [⟨frm, into⟩],
        arcs_from := g.arcs_from.set frm
          ((g.arcs_from.getD frm []) ++ [g.arc_data.length]),
        arcs_into := g.arcs_into.set into
          ((g.arcs_into.getD into []) ++ [g.arc_data.length]) })

/-- src/graph.rs `bulk_connect`. -/
def bulk_connect (g : GraphNetwork N A) (arcs : List (Nat × Nat × A)) :
    Except Err (GraphNetwork N A) :=
  match arcs with
  | [] => .ok g
  | (frm, into, value) :: rest =>
      match connect g frm into value with
      | .error e => .error e
      | .ok (_, g') => bulk_connect g' rest

/-- src/graph.rs `disconnect`: no-op (returning `none`) when the id is out of
range; otherwise takes the payload slot, leaving endpoints and logs intact. -/
def disconnect (g : GraphNetwork N A) (arc : Nat) :
    Option A × GraphNetwork N A :=
  if g.arc_data.length ≤ arc then (none, g)
  else (g.arc_data.getD arc none, { g with arc_data := g.arc_data.set arc none })

/-- Node renumbering pass of src/graph.rs `clean`: rebuilds live nodes in
index order, recording the old-to-new id map (the Rust `HashMap` is an
association list here; its keys are distinct old ids). -/
def cleanNodePass (olds : List (Option N)) (oldId : Nat)
    (bn : GraphNetwork N A) (map : List (Nat × Nat)) :
    GraphNetwork N A × List (Nat × Nat) :=
  match olds with
  | [] => (bn, map)
  | none :: rest => cleanNodePass rest (oldId + 1) bn map
  | some d :: rest =>
      let p := add_node bn d
      cleanNodePass rest (oldId + 1) p.2 (map ++ [(oldId, p.1)])

/-- Arc renumbering pass of src/graph.rs `clean`: the Rust code indexes the
old-to-new map with `old_new_map[&from]`, which panics when the key is
absent; that is `Err.keyMissing`. -/
def cleanArcPass (conns : List ArcConnection) (map : List (Nat × Nat))
    (olds : List (Option A)) (oldA : Nat) (bn : GraphNetwork N A) :
    Except Err (GraphNetwork N A) :=
  match olds with
  | [] => .ok bn
  | none :: rest => cleanArcPass conns map rest (oldA + 1) bn
  | some d :: rest =>
      let c := conns.getD oldA default
      match map.lookup c.frm, map.lookup c.into with
      | some nf, some ni =>
          match connect bn nf ni d with
          | .error e => .error e
          | .ok (_, bn') => cleanArcPass conns map rest (oldA + 1) bn'
      | _, _ => .error .keyMissing

/-- src/graph.rs `clean`: rebuild into a brand-new container holding the live
nodes and the untombstoned arcs, renumbered contiguously. -/
def clean (g : GraphNetwork N A) : Except Err (GraphNetwork N A) :=
  let p := cleanNodePass g.node_data 0 GraphNetwork.new []
  cleanArcPass g.arc_connections p.2 g.arc_data 0 p.1

/-! ## The flow engine (src/karzanov.rs) -/

/-- src/karzanov.rs `KarzanovNode`: rollback stack and layering marker. -/
structure KarzanovNode where
  stack : List (Nat × Nat)
  grouped : Bool
deriving DecidableEq

def KarzanovNode.new : KarzanovNode := ⟨[], false⟩

/-- src/karzanov.rs `KarzanovArc`: capacity, current flow, open flag
(`open` is a Lean keyword, so the field is called `opn`). -/
structure KarzanovArc where
  capacity : Nat
  flow : Nat
  opn : Bool
deriving DecidableEq

def KarzanovArc.new (capacity : Nat) : KarzanovArc := ⟨capacity, 0, true⟩

abbrev KNet := GraphNetwork KarzanovNode KarzanovArc

/-- Checked `u32` subtraction: a debug build panics on underflow. -/
def checkedSub (a b : Nat) : Except Err Nat :=
  if b ≤ a then .ok (a - b) else .error .underflow

/-- Overwrite the payload of arc `aid` (Rust `mut_data_of_arc` write). -/
def setArc (g : KNet) (aid : Nat) (a : KarzanovArc) : KNet :=
  { g with arc_data := g.arc_data.set aid (some a) }

/-- Overwrite the payload of node `nid` (Rust `mut_data_of_node` write). -/
def setNode (g : KNet) (nid : Nat) (n : KarzanovNode) : KNet :=
  { g with node_data := g.node_data.set nid (some n) }

/-- src/karzanov.rs `clean_network`: reset every live node's stack and
marker, every live arc's flow (to 0) and open flag (to true). -/
def clean_network (g : KNet) : KNet :=
  { g with
    node_data := g.node_data.map (Option.map (fun _ => KarzanovNode.new)),
    arc_data := g.arc_data.map (Option.map
      (fun a => { a with flow := 0, opn := true })) }

/-- Inner loop of the layer-collection step of `grouping_nodes_by_layer`:
walk the live out-arcs of one frontier node, marking and collecting each
not-yet-grouped destination.  A tombstoned destination makes the Rust
`data_of_node(..).unwrap()` panic (`Err.absent`). -/
def collectArcs (g : KNet) (arcs : List (Nat × Nat)) (next : List Nat) :
    Except Err (KNet × List Nat) :=
  match arcs with
  | [] => .ok (g, next)
  | (dist, _) :: rest =>
      match g.node_data.getD dist none with
      | none => .error .absent
      | some nd =>
          if nd.grouped then collectArcs g rest next
          else collectArcs (setNode g dist { nd with grouped := true }) rest
            (next ++ [dist])

/-- One layer-collection step: visit every node of the current layer. -/
def collectLayer (g : KNet) (frontier : List Nat) (next : List Nat) :
    Except Err (KNet × List Nat) :=
  match frontier with
  | [] => .ok (g, next)
  | nid :: rest =>
      if is_node_in g nid then
        match collectArcs g (from_node g nid) next with
        | .error e => .error e
        | .ok (g', next') => collectLayer g' rest next'
      else .error .nodeMissing

/-- The breadth-first loop of `grouping_nodes_by_layer` (fuel-bounded; fuel
`node count + 1` always suffices). -/
def bfsLoop (fuel : Nat) (g : KNet) (acc : List (List Nat))
    (cur : List Nat) : Except Err (KNet × List (List Nat)) :=
  match fuel with
  | 0 => .error .outOfFuel
  | fuel + 1 =>
      match collectLayer g cur [] with
      | .error e => .error e
      | .ok (g', next) =>
          if next.isEmpty then .ok (g', acc ++ [cur])
          else bfsLoop fuel g' (acc ++ [cur]) next

/-- The in-layer comparator of `grouping_nodes_by_layer`'s `sort_by`. -/
def layerCmp (g : KNet) (a b : Nat) : Ordering :=
  match is_arc_in g a b, is_arc_in g b a with
  | true, false => .lt
  | false, true => .gt
  | _, _ => .eq

/-- One step of stable insertion sort: the new element moves left past
exactly the elements that compare `gt` against it. -/
def insStep (c : α → α → Ordering) (p : List α) (x : α) : List α :=
  (p.reverse.dropWhile (fun y => c y x = .gt)).reverse
    ++ x :: (p.reverse.takeWhile (fun y => c y x = .gt)).reverse

/-- Stable insertion sort, processing elements left to right (the behaviour
of Rust's stable `sort_by` on the short slices this program builds). -/
def isort (c : α → α → Ordering) (l : List α) : List α :=
  l.foldl (insStep c) []

/-- src/karzanov.rs `grouping_nodes_by_layer`: breadth-first layering from
the source, the `last layer = [sink]` check, then the in-layer sort. -/
def grouping_nodes_by_layer (source_id sink_id : Nat) (g : KNet) :
    Except Err (KNet × List (List Nat)) :=
  if ¬ is_node_in g source_id then .error .nodeMissing
  else
    match bfsLoop (g.node_data.length + 1) g [] [source_id] with
    | .error e => .error e
    | .ok (g', layers) =>
        if layers.getLast? ≠ some [sink_id] then .error .unsolvable
        else .ok (g', layers.map (isort (layerCmp g')))

/-- Sum of current flow over a list of (node id, arc id) pairs; the pairs
always come from `from_node`/`into_node`, whose entries are live. -/
def sumFlows (g : KNet) (arcs : List (Nat × Nat)) : Nat :=
  arcs.foldl (fun s p =>
    match g.arc_data.getD p.2 none with
    | some a => s + a.flow
    | none => s) 0

/-- src/karzanov.rs `incoming_flux_of_flow` (the `into_node` call panics on a
missing node). -/
def incoming_flux_of_flow (node_id : Nat) (g : KNet) : Except Err Nat :=
  if is_node_in g node_id then .ok (sumFlows g (into_node g node_id))
  else .error .nodeMissing

/-- src/karzanov.rs `outgoing_flux_of_flow`. -/
def outgoing_flux_of_flow (node_id : Nat) (g : KNet) : Except Err Nat :=
  if is_node_in g node_id then .ok (sumFlows g (from_node g node_id))
  else .error .nodeMissing

/-- Saturation step of `maximize_outgoing`: set every live out-arc of the
source to its capacity (the open flag is not consulted), pushing the positive
delta onto the destination's rollback stack. -/
def saturateArcs (g : KNet) (arcs : List (Nat × Nat)) : Except Err KNet :=
  match arcs with
  | [] => .ok g
  | (node_id, arc_id) :: rest =>
      match g.arc_data.getD arc_id none with
      | none => .error .absent
      | some arc =>
          match checkedSub arc.capacity arc.flow with
          | .error e => .error e
          | .ok delta =>
              let g' := setArc g arc_id { arc with flow := arc.capacity }
              match g'.node_data.getD node_id none with
              | none => .error .absent
              | some nd =>
                  saturateArcs
                    (if 0 < delta then
                      setNode g' node_id
                        { nd with stack := (arc_id, delta) :: nd.stack }
                    else g') rest

/-- First per-node pass of `maximize_outgoing`: total flow on out-arcs that
are closed or saturated. -/
def consumedOf (g : KNet) (arcs : List (Nat × Nat)) (acc : Nat) :
    Except Err Nat :=
  match arcs with
  | [] => .ok acc
  | (_, arc_id) :: rest =>
      match g.arc_data.getD arc_id none with
      | none => .error .absent
      | some arc =>
          if arc.opn && arc.flow < arc.capacity then consumedOf g rest acc
          else consumedOf g rest (acc + arc.flow)

/-- Second per-node pass of `maximize_outgoing`: assign
`min(capacity, incoming - consumed)` to each open unsaturated out-arc in
adjacency order, pushing positive deltas onto the destination's stack. -/
def distribute (g : KNet) (inflx : Nat) (arcs : List (Nat × Nat))
    (consumed : Nat) : Except Err (KNet × Nat) :=
  match arcs with
  | [] => .ok (g, consumed)
  | (node_id, arc_id) :: rest =>
      match g.arc_data.getD arc_id none with
      | none => .error .absent
      | some arc =>
          if ¬ arc.opn || arc.capacity ≤ arc.flow then
            distribute g inflx rest consumed
          else
            match checkedSub inflx consumed with
            | .error e => .error e
            | .ok avail =>
                if avail = 0 then
                  distribute (setArc g arc_id { arc with flow := 0 })
                    inflx rest consumed
                else
                  let preflow := min arc.capacity avail
                  match checkedSub preflow arc.flow with
                  | .error e => .error e
                  | .ok delta =>
                      let g' := setArc g arc_id { arc with flow := preflow }
                      if 0 < delta then
                        match g'.node_data.getD node_id none with
                        | none => .error .absent
                        | some nd =>
                            distribute
                              (setNode g' node_id
                                { nd with stack := (arc_id, delta) :: nd.stack })
                              inflx rest (consumed + preflow)
                      else distribute g' inflx rest (consumed + preflow)

/-- Per-node body of `maximize_outgoing`'s layer loop. -/
def processNode (g : KNet) (node_id : Nat) : Except Err KNet :=
  match incoming_flux_of_flow node_id g with
  | .error e => .error e
  | .ok inflx =>
      let arcs := from_node g node_id
      match consumedOf g arcs 0 with
      | .error e => .error e
      | .ok consumed =>
          match distribute g inflx arcs consumed with
          | .error e => .error e
          | .ok (g', _) => .ok g'

def processLayerNodes (g : KNet) (layer : List Nat) : Except Err KNet :=
  match layer with
  | [] => .ok g
  | nid :: rest =>
      match processNode g nid with
      | .error e => .error e
      | .ok g' => processLayerNodes g' rest

def processLayers (g : KNet) (ls : List (List Nat)) : Except Err KNet :=
  match ls with
  | [] => .ok g
  | layer :: rest =>
      match processLayerNodes g layer with
      | .error e => .error e
      | .ok g' => processLayers g' rest

/-- src/karzanov.rs `maximize_outgoing`: saturate the source's live out-arcs,
then process the layers from `max start_layer 1` on. -/
def maximize_outgoing (layers : List (List Nat)) (start_layer : Nat)
    (g : KNet) : Except Err KNet :=
  match layers with
  | [] => .error .absent
  | first :: _ =>
      match first with
      | [] => .error .absent
      | source_node_id :: _ =>
          if is_node_in g source_node_id then
            match saturateArcs g (from_node g source_node_id) with
            | .error e => .error e
            | .ok g' => processLayers g' (layers.drop (max start_layer 1))
          else .error .nodeMissing

/-- The pop-and-decrease loop of `balance_incoming`: pop (arc id, delta)
entries, decreasing that arc's flow by `min delta (incoming - outgoing)`,
until incoming no longer exceeds outgoing; an empty stack is the fatal
"this situation cannot be occured" panic. -/
def drainStack (g : KNet) (stack : List (Nat × Nat)) (inflx outflx : Nat) :
    Except Err (KNet × List (Nat × Nat)) :=
  match stack with
  | [] => if inflx ≤ outflx then .ok (g, []) else .error .inconsistent
  | (arc_id, delta) :: rest =>
      if inflx ≤ outflx then .ok (g, (arc_id, delta) :: rest)
      else
        match g.arc_data.getD arc_id none with
        | none => .error .absent
        | some arc =>
            let dec := min delta (inflx - outflx)
            match checkedSub arc.flow dec with
            | .error e => .error e
            | .ok f' =>
                drainStack (setArc g arc_id { arc with flow := f' }) rest
                  (inflx - dec) outflx

/-- Close every live incoming arc of a just-balanced node. -/
def closeArcs (g : KNet) (arcs : List (Nat × Nat)) : Except Err KNet :=
  match arcs with
  | [] => .ok g
  | (_, arc_id) :: rest =>
      match g.arc_data.getD arc_id none with
      | none => .error .absent
      | some arc => closeArcs (setArc g arc_id { arc with opn := false }) rest

/-- Per-node body of `balance_incoming`: detect a deficiency
(incoming > outgoing; incoming < outgoing is the fatal inconsistency panic),
drain the rollback stack to rebalance, then close all live incoming arcs.
Returns whether the node was deficient. -/
def balanceNode (g : KNet) (node_id : Nat) : Except Err (KNet × Bool) :=
  match outgoing_flux_of_flow node_id g with
  | .error e => .error e
  | .ok outflx =>
      match incoming_flux_of_flow node_id g with
      | .error e => .error e
      | .ok inflx =>
          if inflx = outflx then .ok (g, false)
          else if inflx < outflx then .error .inconsistent
          else
            match g.node_data.getD node_id none with
            | none => .error .absent
            | some nd =>
                match drainStack g nd.stack inflx outflx with
                | .error e => .error e
                | .ok (g', remaining) =>
                    let g'' := setNode g' node_id { nd with stack := remaining }
                    match closeArcs g'' (into_node g'' node_id) with
                    | .error e => .error e
                    | .ok g3 => .ok (g3, true)

def balanceLayer (g : KNet) (layer : List Nat) (ld : Option Nat) (d : Nat) :
    Except Err (KNet × Option Nat) :=
  match layer with
  | [] => .ok (g, ld)
  | nid :: rest =>
      match balanceNode g nid with
      | .error e => .error e
      | .ok (g', wasdef) =>
          balanceLayer g' rest
            (if wasdef && ld.isNone then some d else ld) d

def balanceScan (g : KNet) (scan : List (Nat × List Nat)) (ld : Option Nat) :
    Except Err (KNet × Option Nat) :=
  match scan with
  | [] => .ok (g, ld)
  | (d, layer) :: rest =>
      match balanceLayer g layer ld d with
      | .error e => .error e
      | .ok (g', ld') => balanceScan g' rest ld'

/-- src/karzanov.rs `balance_incoming`: scan the layers between the source's
layer and the last layer, deepest first; report `some (d - 1)` where `d` is
the deepest layer holding a deficiency, or `none`. -/
def balance_incoming (layers : List (List Nat)) (g : KNet) :
    Except Err (KNet × Option Nat) :=
  match balanceScan g ((layers.enum.drop 1).reverse.drop 1) none with
  | .error e => .error e
  | .ok (g', ld) => .ok (g', ld.map (fun d => d - 1))

inductive ExitKind where
  | noDeficiency
  | stagnation
deriving DecidableEq

/-- The per-arc flow snapshot held between iterations of `maxflow`'s loop
(the Rust `HashMap<ArcId, u32>` keyed by live arc ids). -/
def snapshotOf (g : KNet) : List (Option Nat) :=
  g.arc_data.map (Option.map (fun a => a.flow))

/-- The stagnation test of `maxflow`: no live arc's flow differs from the
snapshot (a live arc absent from the snapshot counts as different). -/
def snapMatches (snap : List (Option Nat)) (g : KNet) : Bool :=
  g.arc_data.enum.all (fun p =>
    match p.2 with
    | none => true
    | some arc => snap.getD p.1 none == some arc.flow)

/-- The fixpoint loop of src/karzanov.rs `maxflow`, with the exit condition
that fired recorded in the result. -/
def maxflowLoop (fuel : Nat) (layers : List (List Nat)) (start : Nat)
    (snap : List (Option Nat)) (g : KNet) :
    Except Err (KNet × ExitKind) :=
  match fuel with
  | 0 => .error .outOfFuel
  | fuel + 1 =>
      match maximize_outgoing layers start g with
      | .error e => .error e
      | .ok g' =>
          match balance_incoming layers g' with
          | .error e => .error e
          | .ok (g'', none) => .ok (g'', .noDeficiency)
          | .ok (g'', some s) =>
              if snapMatches snap g'' then .ok (g'', .stagnation)
              else maxflowLoop fuel layers s (snapshotOf g'') g''

/-- src/karzanov.rs `maxflow`, with the loop's exit kind kept. -/
def maxflowT (fuel source_id sink_id : Nat) (g : KNet) :
    Except Err (KNet × ExitKind) :=
  match grouping_nodes_by_layer source_id sink_id (clean_network g) with
  | .error e => .error e
  | .ok (g', layers) => maxflowLoop fuel layers 0 [] g'

/-- src/karzanov.rs `maxflow`: reset, layer, then iterate
maximize-outgoing / balance-incoming until an exit condition fires. -/
def maxflow (fuel source_id sink_id : Nat) (g : KNet) : Except Err KNet :=
  match maxflowT fuel source_id sink_id g with
  | .error e => .error e
  | .ok (g', _) => .ok g'

/-- Build the networks the drivers build: `n` fresh `KarzanovNode`s, then
`bulk_connect` with `KarzanovArc::new` payloads. -/
def mkKNet (n : Nat) (arcs : List (Nat × Nat × Nat)) : Except Err KNet :=
  bulk_connect (add_nodes GraphNetwork.new (List.replicate n KarzanovNode.new))
    (arcs.map (fun t => (t.1, t.2.1, KarzanovArc.new t.2.2)))

/-! ## Concrete networks used by witnesses and counterexamples -/

def forceNet (e : Except Err KNet) : KNet :=
  match e with
  | .ok g => g
  | .error _ => GraphNetwork.new

/-- The single-edge chain driver network 0 →(2) 1 →(1) 2 before scaling the
second capacity; used to exhibit re-saturation of a closed arc. -/
def netChain3 : KNet := forceNet (mkKNet 3 [(0, 1, 2), (1, 2, 1)])

/-- A layered network on which the fixpoint loop exits by stagnation while
node 1 still has incoming flux 2 and outgoing flux 0. -/
def netC1 : KNet :=
  forceNet (mkKNet 5 [(0, 2, 3), (3, 4, 5), (1, 2, 4), (1, 3, 5), (0, 3, 5), (0, 1, 2)])

/-- A network accepted by the layering check on which `balance_incoming`
hits the fatal `incoming < outgoing` panic. -/
def netC3 : KNet := forceNet (mkKNet 4 [(2, 0, 3), (3, 2, 1), (3, 1, 4), (1, 3, 3)])

/-- A network with an arc back into the source: the source is collected into
a second layer because it is never marked grouped. -/
def netC6 : KNet := forceNet (mkKNet 4 [(0, 1, 1), (1, 0, 1), (1, 2, 1), (2, 3, 1)])

/-- A network whose middle layer [1, 2, 3] carries the live arc 3 → 1 that
the in-layer sort fails to order. -/
def netC8 : KNet :=
  forceNet (mkKNet 5 [(0, 1, 1), (0, 2, 1), (0, 3, 1), (2, 3, 1), (3, 1, 1), (1, 4, 1)])

/-- Source cannot reach node 2: the layering stops at [[0], [1]]. -/
def netNoPath : KNet := forceNet (mkKNet 3 [(0, 1, 1)])

/-- Two nodes joined by one arc. -/
def netPair : KNet := forceNet (mkKNet 2 [(0, 1, 1)])

/-- The first driver network (6 nodes, max flow 5). -/
def netScen1 : KNet :=
  forceNet (mkKNet 6 [(0, 1, 2), (0, 2, 3), (1, 3, 2), (2, 3, 4), (2, 4, 2), (3, 5, 3), (4, 5, 2)])

example : (maxflowT 20 0 5 netScen1).map (fun p => p.2) = .ok .noDeficiency := by decide

/-! ## Basic list lemmas -/

theorem set_none_eq_self {α : Type} :
    ∀ (l : List (Option α)) (i : Nat), l.getD i none = none → l.set i none = l
  | [], _, _ => rfl
  | x :: xs, 0, h => by
      simp only [List.getD_cons_zero] at h
      simp [List.set, h]
  | x :: xs, i + 1, h => by
      simp only [List.getD_cons_succ] at h
      simp [List.set, set_none_eq_self xs i h]

/-! ## Claim C9: removal is idempotent -/

/-- C9: for every graph, `remove_node` on an out-of-range or tombstoned node
id returns `none` and leaves the container unchanged, and `disconnect` on an
out-of-range or tombstoned arc id returns `none` and leaves the container
unchanged. -/
theorem removal_idempotent {N A : Type} :
    (∀ (g : GraphNetwork N A) (node : Nat),
        is_node_in g node = false → remove_node g node = (none, g))
    ∧ (∀ (g : GraphNetwork N A) (arc : Nat),
        g.arc_data.getD arc none = none → disconnect g arc = (none, g)) := by
  constructor
  · intro g node h
    simp [remove_node, h]
  · intro g arc h
    by_cases hlen : g.arc_data.length ≤ arc
    · simp [disconnect, hlen]
    · have hset : g.arc_data.set arc none = g.arc_data :=
        set_none_eq_self _ _ h
      have h' : g.arc_data[arc]?.getD none = none := by
        simpa [List.getD] using h
      simp [disconnect, hlen, hset, h']

/-- Witness for C9 at a concrete container: node id 5 and arc id 3 are absent
from `netPair`, and removing them is a no-op. -/
theorem removal_idempotent_witness :
    is_node_in netPair 5 = false ∧ remove_node netPair 5 = (none, netPair)
    ∧ netPair.arc_data.getD 3 none = none
    ∧ disconnect netPair 3 = (none, netPair) :=
  ⟨by decide, removal_idempotent.1 netPair 5 (by decide), by decide,
    removal_idempotent.2 netPair 3 (by decide)⟩

/-! ## Claim C5: the layering check rejects malformed inputs -/

/-- C5: whenever the breadth-first layering from the source completes with a
final layer different from the singleton `[sink]`, `maxflow` aborts with the
unsolvable-input error instead of returning normally. -/
theorem layering_reject (fuel s t : Nat) (g g1 : KNet)
    (layers : List (List Nat))
    (hs : is_node_in (clean_network g) s = true)
    (hbfs : bfsLoop ((clean_network g).node_data.length + 1)
      (clean_network g) [] [s] = .ok (g1, layers))
    (hlast : layers.getLast? ≠ some [t]) :
    maxflow fuel s t g = .error .unsolvable := by
  simp [maxflow, maxflowT, grouping_nodes_by_layer, hs, hbfs, hlast]

def w5run : Except Err (KNet × List (List Nat)) :=
  bfsLoop ((clean_network netNoPath).node_data.length + 1)
    (clean_network netNoPath) [] [0]

def w5g : KNet :=
  match w5run with
  | .ok p => p.1
  | .error _ => GraphNetwork.new

def w5layers : List (List Nat) :=
  match w5run with
  | .ok p => p.2
  | .error _ => []

/-- Witness for C5: on `netNoPath` with sink 2 the layering stops at
`[[0], [1]]` and `maxflow` errors out. -/
theorem layering_reject_witness :
    is_node_in (clean_network netNoPath) 0 = true
    ∧ bfsLoop ((clean_network netNoPath).node_data.length + 1)
        (clean_network netNoPath) [] [0] = .ok (w5g, w5layers)
    ∧ w5layers.getLast? ≠ some [2]
    ∧ maxflow 1 0 2 netNoPath = .error .unsolvable :=
  ⟨by decide, by decide, by decide,
    layering_reject 1 0 2 netNoPath w5g w5layers (by decide) (by decide)
      (by decide)⟩

/-! ## Claim C7: `clean` on a graph with a dangling live arc -/

/-- C7: the claim says `clean` rebuilds any graph, including one where a node
was removed while arcs incident to it were left untombstoned.  On exactly
that input the Rust code panics: the arc pass indexes `old_new_map[&from]`
for the removed endpoint 0, and the key is absent. -/
theorem clean_dangling_arc_panics :
    clean (remove_node netPair 0).2 = .error .keyMissing := by decide

/-! ## Claim C3: the fixpoint loop on an accepted input -/

/-- C3: `netC3` is accepted by the layering check (layers
`[[1], [3], [2, 1], [0]]` for source 1, sink 0), yet the first
balance-incoming pass aborts with the internal-consistency panic
(`incoming < outgoing`), so the loop reaches neither of its two exits. -/
theorem fixpoint_loop_panics_on_accepted_input :
    (grouping_nodes_by_layer 1 0 (clean_network netC3)).map (fun p => p.2)
      = .ok [[1], [3], [2, 1], [0]]
    ∧ maxflow 1 1 0 netC3 = .error .inconsistent := by decide

/-! ## Claim C1, counterexample part -/

def c1Final : KNet :=
  match maxflowT 10 0 4 netC1 with
  | .ok p => p.1
  | .error _ => GraphNetwork.new

/-- C1 counterexample: on `netC1` (accepted by the layering check) the loop
exits through the stagnation guard and `maxflow` returns normally, yet node 1
(neither source 0 nor sink 4) ends with incoming flux 2 and outgoing flux 0. -/
theorem conservation_fails_at_stagnation :
    maxflowT 10 0 4 netC1 = .ok (c1Final, .stagnation)
    ∧ maxflow 10 0 4 netC1 = .ok c1Final
    ∧ is_node_in c1Final 1 = true
    ∧ incoming_flux_of_flow 1 c1Final = .ok 2
    ∧ outgoing_flux_of_flow 1 c1Final = .ok 0 := by decide

/-! ## Claim C2, counterexample part -/

/-- Replay of `maxflow 0 2 netChain3`'s first loop iteration and the
maximize-outgoing call of its second iteration, probing arc 0 after each. -/
def c2Probe : Except Err (Option Nat × KarzanovArc × KarzanovArc) :=
  match grouping_nodes_by_layer 0 2 (clean_network netChain3) with
  | .error e => .error e
  | .ok (g1, layers) =>
      match maximize_outgoing layers 0 g1 with
      | .error e => .error e
      | .ok g2 =>
          match balance_incoming layers g2 with
          | .error e => .error e
          | .ok (g3, s) =>
              match maximize_outgoing layers (s.getD 0) g3 with
              | .error e => .error e
              | .ok g4 =>
                  match g3.arc_data.getD 0 none, g4.arc_data.getD 0 none with
                  | some a3, some a4 => .ok (s, a3, a4)
                  | _, _ => .error .absent

/-- C2 counterexample: during `maxflow 0 2` on the chain 0 →(2) 1 →(1) 2,
the first balance-incoming closes arc 0 at flow 1, and the very next
maximize-outgoing pass (the source-saturation step of the loop's second
iteration, with restart layer 0) raises the closed arc's flow back to 2. -/
theorem closed_arc_flow_raised :
    c2Probe = .ok (some 0, ⟨2, 1, false⟩, ⟨2, 2, false⟩) := by decide

/-! ## Claim C6, counterexample part -/

/-- C6 counterexample: with the arc 1 → 0 back into the source, the layering
of `netC6` (source 0, sink 3) is accepted and places the source in layer 0
and again in layer 2, because the source is never marked grouped. -/
theorem source_in_two_layers :
    (grouping_nodes_by_layer 0 3 (clean_network netC6)).map (fun p => p.2)
      = .ok [[0], [1], [0, 2], [3]]
    ∧ List.count 0 [[0], [1], [0, 2], [3]].flatten = 2 := by decide

/-! ## Claim C8, counterexample part -/

def c8g : KNet :=
  match grouping_nodes_by_layer 0 4 (clean_network netC8) with
  | .ok p => p.1
  | .error _ => GraphNetwork.new

/-- C8 counterexample: in the sorted middle layer `[1, 2, 3]` of `netC8` the
live arc 3 → 1 has its source node 3 ordered after its destination node 1
(the comparator is not transitive, and the sort never compares this pair). -/
theorem same_layer_arc_unordered :
    (grouping_nodes_by_layer 0 4 (clean_network netC8)).map (fun p => p.2)
      = .ok [[0], [1, 2, 3], [4]]
    ∧ is_arc_in c8g 3 1 = true
    ∧ is_arc_in c8g 1 3 = false
    ∧ List.indexOf 1 [1, 2, 3] < List.indexOf 3 [1, 2, 3] := by decide

/-! ## Pointwise lemmas about `List.set` / `List.getD` -/

theorem getD_set_eq {α : Type} :
    ∀ (l : List α) (i : Nat) (v d : α), i < l.length → (l.set i v).getD i d = v
  | [], i, v, d, h => by simp at h
  | x :: xs, 0, v, d, h => rfl
  | x :: xs, i + 1, v, d, h => by
      simp only [List.set, List.getD_cons_succ]
      exact getD_set_eq xs i v d (by simpa using h)

theorem getD_set_ne {α : Type} :
    ∀ (l : List α) (i j : Nat) (v d : α), j ≠ i → (l.set i v).getD j d = l.getD j d
  | [], i, j, v, d, h => rfl
  | x :: xs, 0, 0, v, d, h => absurd rfl h
  | x :: xs, 0, j + 1, v, d, h => rfl
  | x :: xs, i + 1, 0, v, d, h => rfl
  | x :: xs, i + 1, j + 1, v, d, h => by
      simp only [List.set, List.getD_cons_succ]
      exact getD_set_ne xs i j v d (fun c => h (by rw [c]))

theorem getD_none_lt {α : Type} :
    ∀ (l : List (Option α)) (i : Nat) (a : α), l.getD i none = some a → i < l.length
  | [], i, a, h => by simp [List.getD] at h
  | x :: xs, 0, a, h => by simp
  | x :: xs, i + 1, a, h => by
      simp only [List.getD_cons_succ] at h
      simpa using Nat.succ_lt_succ (getD_none_lt xs i a h)

/-! ## Shape preservation -/

/-- The flow engine never touches the container's structure: adjacency logs,
endpoint records and the liveness of every slot are preserved; only node and
arc payload contents change. -/
def sameShape (g g' : KNet) : Prop :=
  g'.arcs_from = g.arcs_from ∧ g'.arcs_into = g.arcs_into
  ∧ g'.arc_connections = g.arc_connections
  ∧ g'.node_data.length = g.node_data.length
  ∧ (∀ n, (g'.node_data.getD n none).isSome = (g.node_data.getD n none).isSome)
  ∧ g'.arc_data.length = g.arc_data.length
  ∧ (∀ a, (g'.arc_data.getD a none).isSome = (g.arc_data.getD a none).isSome)

theorem sameShape_refl (g : KNet) : sameShape g g :=
  ⟨rfl, rfl, rfl, rfl, fun _ => rfl, rfl, fun _ => rfl⟩

theorem sameShape_trans {g1 g2 g3 : KNet}
    (h : sameShape g1 g2) (h' : sameShape g2 g3) : sameShape g1 g3 := by
  obtain ⟨a1, a2, a3, a4, a5, a6, a7⟩ := h
  obtain ⟨b1, b2, b3, b4, b5, b6, b7⟩ := h'
  exact ⟨b1.trans a1, b2.trans a2, b3.trans a3, b4.trans a4,
    fun n => (b5 n).trans (a5 n), b6.trans a6, fun a => (b7 a).trans (a7 a)⟩

theorem sameShape_setArc {g : KNet} {aid : Nat} {arc a : KarzanovArc}
    (h : g.arc_data.getD aid none = some arc) :
    sameShape g (setArc g aid a) := by
  refine ⟨rfl, rfl, rfl, rfl, fun _ => rfl, by simp [setArc], fun j => ?_⟩
  simp only [setArc]
  by_cases hj : j = aid
  · subst hj
    rw [getD_set_eq _ _ _ _ (getD_none_lt _ _ _ h), h]
    rfl
  · rw [getD_set_ne _ _ _ _ _ hj]

theorem sameShape_setNode {g : KNet} {nid : Nat} {nd n : KarzanovNode}
    (h : g.node_data.getD nid none = some nd) :
    sameShape g (setNode g nid n) := by
  refine ⟨rfl, rfl, rfl, by simp [setNode], fun j => ?_, rfl, fun _ => rfl⟩
  simp only [setNode]
  by_cases hj : j = nid
  · subst hj
    rw [getD_set_eq _ _ _ _ (getD_none_lt _ _ _ h), h]
    rfl
  · rw [getD_set_ne _ _ _ _ _ hj]

theorem from_node_congr {g g' : KNet} (h : sameShape g g') (u : Nat) :
    from_node g' u = from_node g u := by
  obtain ⟨a1, a2, a3, _, _, _, a7⟩ := h
  unfold from_node
  rw [a1, a3]
  apply List.filterMap_congr
  intro aid _
  rw [a7 aid]

theorem into_node_congr {g g' : KNet} (h : sameShape g g') (u : Nat) :
    into_node g' u = into_node g u := by
  obtain ⟨a1, a2, a3, _, _, _, a7⟩ := h
  unfold into_node
  rw [a2, a3]
  apply List.filterMap_congr
  intro aid _
  rw [a7 aid]

theorem is_node_in_congr {g g' : KNet} (h : sameShape g g') (u : Nat) :
    is_node_in g' u = is_node_in g u := by
  obtain ⟨_, _, _, a4, a5, _, _⟩ := h
  unfold is_node_in
  rw [a4, a5]

theorem checkedSub_ok {a b c : Nat} (h : checkedSub a b = .ok c) :
    b ≤ a ∧ c = a - b := by
  unfold checkedSub at h
  split at h
  · cases h; exact ⟨by assumption, rfl⟩
  · cases h

/-! ## How `balance_incoming` evolves arc payloads: capacities constant,
flows never increased, closed arcs never reopened. -/

def arcEvolveBal (g g' : KNet) : Prop :=
  ∀ aid arc, g.arc_data.getD aid none = some arc →
    ∃ arc', g'.arc_data.getD aid none = some arc'
      ∧ arc'.capacity = arc.capacity
      ∧ arc'.flow ≤ arc.flow
      ∧ (arc.opn = false → arc'.opn = false)

theorem arcEvolveBal_refl (g : KNet) : arcEvolveBal g g :=
  fun _ arc h => ⟨arc, h, rfl, Nat.le_refl _, fun hc => hc⟩

theorem arcEvolveBal_trans {g1 g2 g3 : KNet}
    (h : arcEvolveBal g1 g2) (h' : arcEvolveBal g2 g3) :
    arcEvolveBal g1 g3 := by
  intro aid arc h1
  obtain ⟨arc2, hg2, hc2, hf2, ho2⟩ := h aid arc h1
  obtain ⟨arc3, hg3, hc3, hf3, ho3⟩ := h' aid arc2 hg2
  exact ⟨arc3, hg3, hc3.trans hc2, hf3.trans hf2, fun hc => ho3 (ho2 hc)⟩

theorem arcEvolveBal_setArc {g : KNet} {aid : Nat} {arc a : KarzanovArc}
    (hga : g.arc_data.getD aid none = some arc)
    (hcap : a.capacity = arc.capacity) (hflow : a.flow ≤ arc.flow)
    (hopn : arc.opn = false → a.opn = false) :
    arcEvolveBal g (setArc g aid a) := by
  intro j arcj hj
  by_cases hjq : j = aid
  · subst hjq
    rw [hj] at hga
    cases hga
    refine ⟨a, ?_, hcap, hflow, hopn⟩
    simp only [setArc]
    exact getD_set_eq _ _ _ _ (getD_none_lt _ _ _ hj)
  · refine ⟨arcj, ?_, rfl, Nat.le_refl _, fun hc => hc⟩
    simp only [setArc]
    rw [getD_set_ne _ _ _ _ _ hjq, hj]

theorem arcEvolveBal_setNode (g : KNet) (nid : Nat) (n : KarzanovNode) :
    arcEvolveBal g (setNode g nid n) :=
  fun _ arc h => ⟨arc, h, rfl, Nat.le_refl _, fun hc => hc⟩

theorem drainStack_bal :
    ∀ (stack : List (Nat × Nat)) (g : KNet) (inflx outflx : Nat) (g' : KNet)
      (rem : List (Nat × Nat)),
      drainStack g stack inflx outflx = .ok (g', rem) →
      sameShape g g' ∧ arcEvolveBal g g' := by
  intro stack
  induction stack with
  | nil =>
      intro g inflx outflx g' rem h
      simp only [drainStack] at h
      split at h
      · cases h; exact ⟨sameShape_refl g, arcEvolveBal_refl g⟩
      · cases h
  | cons e rest ih =>
      intro g inflx outflx g' rem h
      obtain ⟨aid, delta⟩ := e
      simp only [drainStack] at h
      split at h
      · cases h; exact ⟨sameShape_refl g, arcEvolveBal_refl g⟩
      · cases hga : g.arc_data.getD aid none with
        | none => simp only [hga] at h; cases h
        | some arc =>
            simp only [hga] at h
            cases hcs : checkedSub arc.flow (min delta (inflx - outflx)) with
            | error e => simp only [hcs] at h; cases h
            | ok f' =>
                simp only [hcs] at h
                obtain ⟨hle, hf'⟩ := checkedSub_ok hcs
                obtain ⟨hs, hb⟩ := ih _ _ _ _ _ h
                refine ⟨sameShape_trans (sameShape_setArc hga) hs, ?_⟩
                refine arcEvolveBal_trans ?_ hb
                exact arcEvolveBal_setArc hga rfl
                  (by rw [hf']; exact Nat.sub_le _ _) (fun hc => hc)

theorem closeArcs_bal :
    ∀ (arcs : List (Nat × Nat)) (g g' : KNet),
      closeArcs g arcs = .ok g' → sameShape g g' ∧ arcEvolveBal g g' := by
  intro arcs
  induction arcs with
  | nil =>
      intro g g' h
      simp only [closeArcs] at h
      cases h
      exact ⟨sameShape_refl g, arcEvolveBal_refl g⟩
  | cons e rest ih =>
      intro g g' h
      obtain ⟨nid, aid⟩ := e
      simp only [closeArcs] at h
      cases hga : g.arc_data.getD aid none with
      | none => simp only [hga] at h; cases h
      | some arc =>
          simp only [hga] at h
          obtain ⟨hs, hb⟩ := ih _ _ h
          refine ⟨sameShape_trans (sameShape_setArc hga) hs, ?_⟩
          refine arcEvolveBal_trans ?_ hb
          exact arcEvolveBal_setArc hga rfl (Nat.le_refl _) (fun _ => rfl)

theorem balanceNode_bal {g : KNet} {nid : Nat} {g' : KNet} {wasdef : Bool}
    (h : balanceNode g nid = .ok (g', wasdef)) :
    sameShape g g' ∧ arcEvolveBal g g' := by
  unfold balanceNode at h
  cases ho : outgoing_flux_of_flow nid g with
  | error e => simp only [ho] at h; cases h
  | ok outflx =>
      simp only [ho] at h
      cases hi : incoming_flux_of_flow nid g with
      | error e => simp only [hi] at h; cases h
      | ok inflx =>
          simp only [hi] at h
          split at h
          · cases h; exact ⟨sameShape_refl g, arcEvolveBal_refl g⟩
          · split at h
            · cases h
            · cases hnd : g.node_data.getD nid none with
              | none => simp only [hnd] at h; cases h
              | some nd =>
                  simp only [hnd] at h
                  cases hdr : drainStack g nd.stack inflx outflx with
                  | error e => simp only [hdr] at h; cases h
                  | ok p =>
                      obtain ⟨g1, rem⟩ := p
                      simp only [hdr] at h
                      obtain ⟨hs1, hb1⟩ := drainStack_bal _ _ _ _ _ _ hdr
                      cases hcl : closeArcs (setNode g1 nid { nd with stack := rem })
                          (into_node (setNode g1 nid { nd with stack := rem }) nid) with
                      | error e => simp only [hcl] at h; cases h
                      | ok g3 =>
                          simp only [hcl] at h
                          cases h
                          obtain ⟨hs3, hb3⟩ := closeArcs_bal _ _ _ hcl
                          have hiso := hs1.2.2.2.2.1 nid
                          rw [hnd] at hiso
                          cases hq : g1.node_data.getD nid none with
                          | none => rw [hq] at hiso; cases hiso
                          | some x =>
                              refine ⟨sameShape_trans hs1 (sameShape_trans
                                (sameShape_setNode hq) hs3), ?_⟩
                              exact arcEvolveBal_trans hb1 (arcEvolveBal_trans
                                (arcEvolveBal_setNode _ _ _) hb3)

theorem balanceLayer_bal :
    ∀ (layer : List Nat) (g : KNet) (ld : Option Nat) (d : Nat) (g' : KNet)
      (ld' : Option Nat),
      balanceLayer g layer ld d = .ok (g', ld') →
      sameShape g g' ∧ arcEvolveBal g g' := by
  intro layer
  induction layer with
  | nil =>
      intro g ld d g' ld' h
      simp only [balanceLayer] at h
      cases h
      exact ⟨sameShape_refl g, arcEvolveBal_refl g⟩
  | cons nid rest ih =>
      intro g ld d g' ld' h
      simp only [balanceLayer] at h
      cases hbn : balanceNode g nid with
      | error e => simp only [hbn] at h; cases h
      | ok p =>
          obtain ⟨g1, wasdef⟩ := p
          simp only [hbn] at h
          obtain ⟨hs1, hb1⟩ := balanceNode_bal hbn
          obtain ⟨hs2, hb2⟩ := ih _ _ _ _ _ h
          exact ⟨sameShape_trans hs1 hs2, arcEvolveBal_trans hb1 hb2⟩

theorem balanceScan_bal :
    ∀ (scan : List (Nat × List Nat)) (g : KNet) (ld : Option Nat) (g' : KNet)
      (ld' : Option Nat),
      balanceScan g scan ld = .ok (g', ld') →
      sameShape g g' ∧ arcEvolveBal g g' := by
  intro scan
  induction scan with
  | nil =>
      intro g ld g' ld' h
      simp only [balanceScan] at h
      cases h
      exact ⟨sameShape_refl g, arcEvolveBal_refl g⟩
  | cons e rest ih =>
      intro g ld g' ld' h
      obtain ⟨d, layer⟩ := e
      simp only [balanceScan] at h
      cases hbl : balanceLayer g layer ld d with
      | error e => simp only [hbl] at h; cases h
      | ok p =>
          obtain ⟨g1, ld1⟩ := p
          simp only [hbl] at h
          obtain ⟨hs1, hb1⟩ := balanceLayer_bal _ _ _ _ _ _ hbl
          obtain ⟨hs2, hb2⟩ := ih _ _ _ _ h
          exact ⟨sameShape_trans hs1 hs2, arcEvolveBal_trans hb1 hb2⟩

theorem balance_incoming_bal {layers : List (List Nat)} {g g' : KNet}
    {r : Option Nat} (h : balance_incoming layers g = .ok (g', r)) :
    sameShape g g' ∧ arcEvolveBal g g' := by
  unfold balance_incoming at h
  cases hbs : balanceScan g ((layers.enum.drop 1).reverse.drop 1) none with
  | error e => simp only [hbs] at h; cases h
  | ok p =>
      obtain ⟨g1, ld⟩ := p
      simp only [hbs] at h
      cases h
      exact balanceScan_bal _ _ _ _ _ hbs

/-! ## How `maximize_outgoing` evolves arc payloads: capacities and open
flags constant, every rewritten flow bounded by the capacity. -/

def arcEvolveMax (g g' : KNet) : Prop :=
  ∀ aid arc, g.arc_data.getD aid none = some arc →
    ∃ arc', g'.arc_data.getD aid none = some arc'
      ∧ arc'.capacity = arc.capacity
      ∧ arc'.opn = arc.opn
      ∧ (arc' = arc ∨ arc'.flow ≤ arc'.capacity)

theorem arcEvolveMax_refl (g : KNet) : arcEvolveMax g g :=
  fun _ arc h => ⟨arc, h, rfl, rfl, Or.inl rfl⟩

theorem arcEvolveMax_trans {g1 g2 g3 : KNet}
    (h : arcEvolveMax g1 g2) (h' : arcEvolveMax g2 g3) :
    arcEvolveMax g1 g3 := by
  intro aid arc h1
  obtain ⟨arc2, hg2, hc2, ho2, hf2⟩ := h aid arc h1
  obtain ⟨arc3, hg3, hc3, ho3, hf3⟩ := h' aid arc2 hg2
  refine ⟨arc3, hg3, hc3.trans hc2, ho3.trans ho2, ?_⟩
  cases hf3 with
  | inl he =>
      cases hf2 with
      | inl he2 => exact Or.inl (he.trans he2)
      | inr hb => exact Or.inr (by rw [he]; exact hb)
  | inr hb => exact Or.inr hb

theorem arcEvolveMax_setArc {g : KNet} {aid : Nat} {arc a : KarzanovArc}
    (hga : g.arc_data.getD aid none = some arc)
    (hcap : a.capacity = arc.capacity) (hopn : a.opn = arc.opn)
    (hflow : a.flow ≤ a.capacity) :
    arcEvolveMax g (setArc g aid a) := by
  intro j arcj hj
  by_cases hjq : j = aid
  · subst hjq
    rw [hj] at hga
    cases hga
    refine ⟨a, ?_, hcap, hopn, Or.inr hflow⟩
    simp only [setArc]
    exact getD_set_eq _ _ _ _ (getD_none_lt _ _ _ hj)
  · refine ⟨arcj, ?_, rfl, rfl, Or.inl rfl⟩
    simp only [setArc]
    rw [getD_set_ne _ _ _ _ _ hjq, hj]

theorem arcEvolveMax_setNode (g : KNet) (nid : Nat) (n : KarzanovNode) :
    arcEvolveMax g (setNode g nid n) :=
  fun _ arc h => ⟨arc, h, rfl, rfl, Or.inl rfl⟩

theorem saturateArcs_max :
    ∀ (arcs : List (Nat × Nat)) (g g' : KNet),
      saturateArcs g arcs = .ok g' → sameShape g g' ∧ arcEvolveMax g g' := by
  intro arcs
  induction arcs with
  | nil =>
      intro g g' h
      simp only [saturateArcs] at h
      cases h
      exact ⟨sameShape_refl g, arcEvolveMax_refl g⟩
  | cons e rest ih =>
      intro g g' h
      obtain ⟨nid, aid⟩ := e
      simp only [saturateArcs] at h
      cases hga : g.arc_data.getD aid none with
      | none => simp only [hga] at h; cases h
      | some arc =>
          simp only [hga] at h
          cases hcs : checkedSub arc.capacity arc.flow with
          | error e => simp only [hcs] at h; cases h
          | ok delta =>
              simp only [hcs] at h
              have hset : g.arc_data.getD aid none = some arc := hga
              have hs0 : sameShape g
                  (setArc g aid { arc with flow := arc.capacity }) :=
                sameShape_setArc hset
              have hm0 : arcEvolveMax g
                  (setArc g aid { arc with flow := arc.capacity }) :=
                arcEvolveMax_setArc hset rfl rfl (Nat.le_refl _)
              cases hnd : (setArc g aid
                  { arc with flow := arc.capacity }).node_data.getD nid none with
              | none => simp only [hnd] at h; cases h
              | some nd =>
                  simp only [hnd] at h
                  split at h
                  · obtain ⟨hs1, hm1⟩ := ih _ _ h
                    refine ⟨sameShape_trans hs0 (sameShape_trans
                      (sameShape_setNode hnd) hs1), ?_⟩
                    exact arcEvolveMax_trans hm0 (arcEvolveMax_trans
                      (arcEvolveMax_setNode _ _ _) hm1)
                  · obtain ⟨hs1, hm1⟩ := ih _ _ h
                    exact ⟨sameShape_trans hs0 hs1,
                      arcEvolveMax_trans hm0 hm1⟩

theorem distribute_max :
    ∀ (arcs : List (Nat × Nat)) (g : KNet) (inflx consumed : Nat)
      (g' : KNet) (c' : Nat),
      distribute g inflx arcs consumed = .ok (g', c') →
      sameShape g g' ∧ arcEvolveMax g g' := by
  intro arcs
  induction arcs with
  | nil =>
      intro g inflx consumed g' c' h
      simp only [distribute] at h
      cases h
      exact ⟨sameShape_refl g, arcEvolveMax_refl g⟩
  | cons e rest ih =>
      intro g inflx consumed g' c' h
      obtain ⟨nid, aid⟩ := e
      simp only [distribute] at h
      cases hga : g.arc_data.getD aid none with
      | none => simp only [hga] at h; cases h
      | some arc =>
          simp only [hga] at h
          split at h
          · obtain ⟨hs1, hm1⟩ := ih _ _ _ _ _ h
            exact ⟨hs1, hm1⟩
          · cases hav : checkedSub inflx consumed with
            | error e => simp only [hav] at h; cases h
            | ok avail =>
                simp only [hav] at h
                split at h
                · obtain ⟨hs1, hm1⟩ := ih _ _ _ _ _ h
                  refine ⟨sameShape_trans (sameShape_setArc hga) hs1, ?_⟩
                  refine arcEvolveMax_trans ?_ hm1
                  exact arcEvolveMax_setArc hga rfl rfl (Nat.zero_le _)
                · cases hps : checkedSub (min arc.capacity avail) arc.flow with
                  | error e => simp only [hps] at h; cases h
                  | ok delta =>
                      simp only [hps] at h
                      have hm0 : arcEvolveMax g
                          (setArc g aid { arc with flow := min arc.capacity avail }) :=
                        arcEvolveMax_setArc hga rfl rfl (Nat.min_le_left _ _)
                      have hs0 : sameShape g
                          (setArc g aid { arc with flow := min arc.capacity avail }) :=
                        sameShape_setArc hga
                      split at h
                      · cases hnd : (setArc g aid
                            { arc with flow := min arc.capacity avail }).node_data.getD
                            nid none with
                        | none => simp only [hnd] at h; cases h
                        | some nd =>
                            simp only [hnd] at h
                            obtain ⟨hs1, hm1⟩ := ih _ _ _ _ _ h
                            refine ⟨sameShape_trans hs0 (sameShape_trans
                              (sameShape_setNode hnd) hs1), ?_⟩
                            exact arcEvolveMax_trans hm0 (arcEvolveMax_trans
                              (arcEvolveMax_setNode _ _ _) hm1)
                      · obtain ⟨hs1, hm1⟩ := ih _ _ _ _ _ h
                        exact ⟨sameShape_trans hs0 hs1,
                          arcEvolveMax_trans hm0 hm1⟩

theorem processNode_max {g : KNet} {nid : Nat} {g' : KNet}
    (h : processNode g nid = .ok g') :
    sameShape g g' ∧ arcEvolveMax g g' := by
  unfold processNode at h
  cases hi : incoming_flux_of_flow nid g with
  | error e => simp only [hi] at h; cases h
  | ok inflx =>
      simp only [hi] at h
      cases hc : consumedOf g (from_node g nid) 0 with
      | error e => simp only [hc] at h; cases h
      | ok consumed =>
          simp only [hc] at h
          cases hd : distribute g inflx (from_node g nid) consumed with
          | error e => simp only [hd] at h; cases h
          | ok p =>
              obtain ⟨g1, c1⟩ := p
              simp only [hd] at h
              cases h
              exact distribute_max _ _ _ _ _ _ hd

theorem processLayerNodes_max :
    ∀ (layer : List Nat) (g g' : KNet),
      processLayerNodes g layer = .ok g' →
      sameShape g g' ∧ arcEvolveMax g g' := by
  intro layer
  induction layer with
  | nil =>
      intro g g' h
      simp only [processLayerNodes] at h
      cases h
      exact ⟨sameShape_refl g, arcEvolveMax_refl g⟩
  | cons nid rest ih =>
      intro g g' h
      simp only [processLayerNodes] at h
      cases hp : processNode g nid with
      | error e => simp only [hp] at h; cases h
      | ok g1 =>
          simp only [hp] at h
          obtain ⟨hs1, hm1⟩ := processNode_max hp
          obtain ⟨hs2, hm2⟩ := ih _ _ h
          exact ⟨sameShape_trans hs1 hs2, arcEvolveMax_trans hm1 hm2⟩

theorem processLayers_max :
    ∀ (ls : List (List Nat)) (g g' : KNet),
      processLayers g ls = .ok g' → sameShape g g' ∧ arcEvolveMax g g' := by
  intro ls
  induction ls with
  | nil =>
      intro g g' h
      simp only [processLayers] at h
      cases h
      exact ⟨sameShape_refl g, arcEvolveMax_refl g⟩
  | cons layer rest ih =>
      intro g g' h
      simp only [processLayers] at h
      cases hp : processLayerNodes g layer with
      | error e => simp only [hp] at h; cases h
      | ok g1 =>
          simp only [hp] at h
          obtain ⟨hs1, hm1⟩ := processLayerNodes_max _ _ _ hp
          obtain ⟨hs2, hm2⟩ := ih _ _ h
          exact ⟨sameShape_trans hs1 hs2, arcEvolveMax_trans hm1 hm2⟩

theorem maximize_outgoing_max {layers : List (List Nat)} {start : Nat}
    {g g' : KNet} (h : maximize_outgoing layers start g = .ok g') :
    sameShape g g' ∧ arcEvolveMax g g' := by
  unfold maximize_outgoing at h
  cases layers with
  | nil => cases h
  | cons first rest =>
      cases first with
      | nil => cases h
      | cons src l0 =>
          simp only at h
          split at h
          · cases hsat : saturateArcs g (from_node g src) with
            | error e => simp only [hsat] at h; cases h
            | ok g1 =>
                simp only [hsat] at h
                obtain ⟨hs1, hm1⟩ := saturateArcs_max _ _ _ hsat
                obtain ⟨hs2, hm2⟩ := processLayers_max _ _ _ h
                exact ⟨sameShape_trans hs1 hs2, arcEvolveMax_trans hm1 hm2⟩
          · cases h

/-! ## Claim C4: 0 ≤ flow ≤ capacity -/

theorem all_getD {α : Type} (p : Option α → Bool) (hn : p none = true) :
    ∀ l : List (Option α), (l.all p = true) ↔ ∀ i, p (l.getD i none) = true
  | [] => by
      simp only [List.all_nil, List.getD_nil, true_iff]
      intro i
      exact hn
  | x :: xs => by
      rw [List.all_cons, Bool.and_eq_true, all_getD p hn xs]
      constructor
      · rintro ⟨hx, hrest⟩ i
        cases i with
        | zero => simpa using hx
        | succ j => simpa [List.getD_cons_succ] using hrest j
      · intro hall
        exact ⟨by simpa using hall 0,
          fun j => by simpa [List.getD_cons_succ] using hall (j + 1)⟩

/-- One arc respects its capacity (`u32` flows are never negative). -/
def arcOk (o : Option KarzanovArc) : Bool :=
  match o with
  | none => true
  | some a => decide (a.flow ≤ a.capacity)

/-- Every live arc of the network satisfies `flow ≤ capacity`. -/
def flowLeCapB (g : KNet) : Bool := g.arc_data.all arcOk

theorem flowLeCapB_iff (g : KNet) : flowLeCapB g = true ↔
    ∀ aid arc, g.arc_data.getD aid none = some arc →
      arc.flow ≤ arc.capacity := by
  rw [flowLeCapB, all_getD arcOk rfl]
  constructor
  · intro h aid arc ha
    have := h aid
    rw [ha] at this
    simpa [arcOk] using this
  · intro h i
    cases ha : g.arc_data.getD i none with
    | none => simp [arcOk]
    | some a => simpa [arcOk] using h i a ha

theorem flowLeCap_of_max {g g' : KNet} (hs : sameShape g g')
    (hm : arcEvolveMax g g') (h : flowLeCapB g = true) :
    flowLeCapB g' = true := by
  rw [flowLeCapB_iff] at h ⊢
  intro aid arc' ha'
  have hiso := hs.2.2.2.2.2.2 aid
  rw [ha'] at hiso
  cases hga : g.arc_data.getD aid none with
  | none => rw [hga] at hiso; cases hiso
  | some arc =>
      obtain ⟨arc'', hg'', hc, ho, hf⟩ := hm aid arc hga
      rw [ha'] at hg''
      cases hg''
      cases hf with
      | inl he => rw [he]; exact h aid arc hga
      | inr hb => exact hb

theorem flowLeCap_of_bal {g g' : KNet} (hs : sameShape g g')
    (hm : arcEvolveBal g g') (h : flowLeCapB g = true) :
    flowLeCapB g' = true := by
  rw [flowLeCapB_iff] at h ⊢
  intro aid arc' ha'
  have hiso := hs.2.2.2.2.2.2 aid
  rw [ha'] at hiso
  cases hga : g.arc_data.getD aid none with
  | none => rw [hga] at hiso; cases hiso
  | some arc =>
      obtain ⟨arc'', hg'', hc, hf, ho⟩ := hm aid arc hga
      rw [ha'] at hg''
      cases hg''
      rw [hc]
      exact hf.trans (h aid arc hga)

theorem getD_map_option {α β : Type} (f : α → β) :
    ∀ (l : List (Option α)) (i : Nat),
      (l.map (Option.map f)).getD i none = (l.getD i none).map f
  | [], i => by simp [List.getD_nil]
  | x :: xs, 0 => rfl
  | x :: xs, i + 1 => by
      simp only [List.map_cons, List.getD_cons_succ]
      exact getD_map_option f xs i

theorem clean_network_flowLeCap (g : KNet) :
    flowLeCapB (clean_network g) = true := by
  rw [flowLeCapB_iff]
  intro aid arc ha
  simp only [clean_network] at ha
  rw [getD_map_option] at ha
  cases hga : g.arc_data.getD aid none with
  | none => rw [hga] at ha; cases ha
  | some a =>
      rw [hga] at ha
      simp only [Option.map] at ha
      cases ha
      exact Nat.zero_le _

/-! ## The layering pass only changes node markers -/

theorem collectArcs_shape :
    ∀ (arcs : List (Nat × Nat)) (g : KNet) (next : List Nat) (g' : KNet)
      (next' : List Nat),
      collectArcs g arcs next = .ok (g', next') →
      sameShape g g' ∧ g'.arc_data = g.arc_data := by
  intro arcs
  induction arcs with
  | nil =>
      intro g next g' next' h
      simp only [collectArcs] at h
      cases h
      exact ⟨sameShape_refl g, rfl⟩
  | cons e rest ih =>
      intro g next g' next' h
      obtain ⟨dist, aid⟩ := e
      simp only [collectArcs] at h
      cases hnd : g.node_data.getD dist none with
      | none => simp only [hnd] at h; cases h
      | some nd =>
          simp only [hnd] at h
          split at h
          · exact ih _ _ _ _ h
          · obtain ⟨hs, ha⟩ := ih _ _ _ _ h
            exact ⟨sameShape_trans (sameShape_setNode hnd) hs, ha⟩

theorem collectLayer_shape :
    ∀ (frontier : List Nat) (g : KNet) (next : List Nat) (g' : KNet)
      (next' : List Nat),
      collectLayer g frontier next = .ok (g', next') →
      sameShape g g' ∧ g'.arc_data = g.arc_data := by
  intro frontier
  induction frontier with
  | nil =>
      intro g next g' next' h
      simp only [collectLayer] at h
      cases h
      exact ⟨sameShape_refl g, rfl⟩
  | cons nid rest ih =>
      intro g next g' next' h
      simp only [collectLayer] at h
      split at h
      · cases hca : collectArcs g (from_node g nid) next with
        | error e => simp only [hca] at h; cases h
        | ok p =>
            obtain ⟨g1, next1⟩ := p
            simp only [hca] at h
            obtain ⟨hs1, ha1⟩ := collectArcs_shape _ _ _ _ _ hca
            obtain ⟨hs2, ha2⟩ := ih _ _ _ _ h
            exact ⟨sameShape_trans hs1 hs2, ha2.trans ha1⟩
      · cases h

theorem bfsLoop_shape :
    ∀ (fuel : Nat) (g : KNet) (acc : List (List Nat)) (cur : List Nat)
      (g' : KNet) (layers : List (List Nat)),
      bfsLoop fuel g acc cur = .ok (g', layers) →
      sameShape g g' ∧ g'.arc_data = g.arc_data := by
  intro fuel
  induction fuel with
  | zero => intro g acc cur g' layers h; cases h
  | succ fuel ih =>
      intro g acc cur g' layers h
      simp only [bfsLoop] at h
      cases hcl : collectLayer g cur [] with
      | error e => simp only [hcl] at h; cases h
      | ok p =>
          obtain ⟨g1, next⟩ := p
          simp only [hcl] at h
          obtain ⟨hs1, ha1⟩ := collectLayer_shape _ _ _ _ _ hcl
          split at h
          · cases h
            exact ⟨hs1, ha1⟩
          · obtain ⟨hs2, ha2⟩ := ih _ _ _ _ _ h
            exact ⟨sameShape_trans hs1 hs2, ha2.trans ha1⟩

theorem grouping_shape {s t : Nat} {g g' : KNet} {layers : List (List Nat)}
    (h : grouping_nodes_by_layer s t g = .ok (g', layers)) :
    sameShape g g' ∧ g'.arc_data = g.arc_data := by
  unfold grouping_nodes_by_layer at h
  split at h
  · cases h
  · cases hb : bfsLoop (g.node_data.length + 1) g [] [s] with
    | error e => simp only [hb] at h; cases h
    | ok p =>
        obtain ⟨g1, L⟩ := p
        simp only [hb] at h
        split at h
        · cases h
        · cases h
          exact bfsLoop_shape _ _ _ _ _ _ hb

theorem maxflowLoop_flowLeCap :
    ∀ (fuel : Nat) (layers : List (List Nat)) (start : Nat)
      (snap : List (Option Nat)) (g g' : KNet) (k : ExitKind),
      maxflowLoop fuel layers start snap g = .ok (g', k) →
      flowLeCapB g = true → flowLeCapB g' = true := by
  intro fuel
  induction fuel with
  | zero => intro layers start snap g g' k h; cases h
  | succ fuel ih =>
      intro layers start snap g g' k h hfl
      simp only [maxflowLoop] at h
      cases hmx : maximize_outgoing layers start g with
      | error e => simp only [hmx] at h; cases h
      | ok g1 =>
          simp only [hmx] at h
          obtain ⟨hs1, hm1⟩ := maximize_outgoing_max hmx
          have hfl1 := flowLeCap_of_max hs1 hm1 hfl
          cases hbl : balance_incoming layers g1 with
          | error e => simp only [hbl] at h; cases h
          | ok p =>
              obtain ⟨g2, r⟩ := p
              obtain ⟨hs2, hm2⟩ := balance_incoming_bal hbl
              have hfl2 := flowLeCap_of_bal hs2 hm2 hfl1
              cases r with
              | none =>
                  simp only [hbl] at h
                  cases h
                  exact hfl2
              | some st =>
                  simp only [hbl] at h
                  split at h
                  · cases h; exact hfl2
                  · exact ih _ _ _ _ _ _ h hfl2

/-- C4: capacity respect.  Flows are `u32` values, hence never negative; this
theorem states the `flow ≤ capacity` half at every stage of a computation:
it holds from the moment the flow state is reset, it is preserved by every
maximize-outgoing pass and every balance-incoming pass (so it holds at every
pass boundary of the fixpoint loop), and it holds of the network a successful
`maxflow` returns. -/
theorem capacity_respected :
    (∀ g : KNet, flowLeCapB (clean_network g) = true)
    ∧ (∀ (layers : List (List Nat)) (start : Nat) (g g' : KNet),
        maximize_outgoing layers start g = .ok g' →
        flowLeCapB g = true → flowLeCapB g' = true)
    ∧ (∀ (layers : List (List Nat)) (g g' : KNet) (r : Option Nat),
        balance_incoming layers g = .ok (g', r) →
        flowLeCapB g = true → flowLeCapB g' = true)
    ∧ (∀ (fuel s t : Nat) (g g' : KNet),
        maxflow fuel s t g = .ok g' → flowLeCapB g' = true) := by
  refine ⟨clean_network_flowLeCap, ?_, ?_, ?_⟩
  · intro layers start g g' h hfl
    obtain ⟨hs, hm⟩ := maximize_outgoing_max h
    exact flowLeCap_of_max hs hm hfl
  · intro layers g g' r h hfl
    obtain ⟨hs, hm⟩ := balance_incoming_bal h
    exact flowLeCap_of_bal hs hm hfl
  · intro fuel s t g g' h
    unfold maxflow maxflowT at h
    cases hgr : grouping_nodes_by_layer s t (clean_network g) with
    | error e => simp only [hgr] at h; cases h
    | ok p =>
        obtain ⟨g1, layers⟩ := p
        simp only [hgr] at h
        cases hlp : maxflowLoop fuel layers 0 [] g1 with
        | error e => simp only [hlp] at h; cases h
        | ok q =>
            obtain ⟨g2, k⟩ := q
            simp only [hlp] at h
            cases h
            have hfl0 := clean_network_flowLeCap g
            obtain ⟨hs1, ha1⟩ := grouping_shape hgr
            have hfl1 : flowLeCapB g1 = true := by
              rw [flowLeCapB, ha1]
              exact hfl0
            exact maxflowLoop_flowLeCap _ _ _ _ _ _ _ hlp hfl1

def wC4g : KNet :=
  match maxflow 20 0 5 netScen1 with
  | .ok g => g
  | .error _ => GraphNetwork.new

/-- Witness for C4: the first driver network runs to completion and every
live arc of the result respects its capacity. -/
theorem capacity_respected_witness :
    maxflow 20 0 5 netScen1 = .ok wC4g ∧ flowLeCapB wC4g = true :=
  ⟨by decide, capacity_respected.2.2.2 20 0 5 netScen1 wC4g (by decide)⟩

/-! ## Claim C2: closed arcs -/

theorem saturateArcs_frame :
    ∀ (arcs : List (Nat × Nat)) (g g' : KNet),
      saturateArcs g arcs = .ok g' →
      ∀ aid, aid ∉ arcs.map Prod.snd →
        g'.arc_data.getD aid none = g.arc_data.getD aid none := by
  intro arcs
  induction arcs with
  | nil =>
      intro g g' h aid _
      simp only [saturateArcs] at h
      cases h
      rfl
  | cons e rest ih =>
      intro g g' h aid hmem
      obtain ⟨nid, aid'⟩ := e
      simp only [List.map_cons, List.mem_cons, not_or] at hmem
      obtain ⟨hne, hrest⟩ := hmem
      simp only [saturateArcs] at h
      cases hga : g.arc_data.getD aid' none with
      | none => simp only [hga] at h; cases h
      | some arc =>
          simp only [hga] at h
          cases hcs : checkedSub arc.capacity arc.flow with
          | error e => simp only [hcs] at h; cases h
          | ok delta =>
              simp only [hcs] at h
              cases hnd : (setArc g aid'
                  { arc with flow := arc.capacity }).node_data.getD nid none with
              | none => simp only [hnd] at h; cases h
              | some nd =>
                  simp only [hnd] at h
                  have hstep :
                      ∀ gmid : KNet,
                        saturateArcs gmid rest = .ok g' →
                        gmid.arc_data
                          = (setArc g aid' { arc with flow := arc.capacity }).arc_data →
                        g'.arc_data.getD aid none = g.arc_data.getD aid none := by
                    intro gmid hrun hmid
                    rw [ih _ _ hrun aid hrest, hmid]
                    simp only [setArc]
                    exact getD_set_ne _ _ _ _ _ hne
                  split at h
                  · exact hstep _ h rfl
                  · exact hstep _ h rfl

theorem distribute_closed_frame :
    ∀ (arcs : List (Nat × Nat)) (g : KNet) (inflx consumed : Nat)
      (g' : KNet) (c' : Nat),
      distribute g inflx arcs consumed = .ok (g', c') →
      ∀ aid arc, g.arc_data.getD aid none = some arc → arc.opn = false →
        g'.arc_data.getD aid none = some arc := by
  intro arcs
  induction arcs with
  | nil =>
      intro g inflx consumed g' c' h aid arc hga hcl
      simp only [distribute] at h
      cases h
      exact hga
  | cons e rest ih =>
      intro g inflx consumed g' c' h aid arc hga hcl
      obtain ⟨nid, aid'⟩ := e
      simp only [distribute] at h
      cases hga' : g.arc_data.getD aid' none with
      | none => simp only [hga'] at h; cases h
      | some arc' =>
          simp only [hga'] at h
          split at h
          · exact ih _ _ _ _ _ h aid arc hga hcl
          · -- arc' is open and unsaturated here
            rename_i hcond
            have hopen : arc'.opn = true := by
              by_contra hc
              exact hcond (by simp [hc])
            have hane : aid ≠ aid' := by
              intro he
              rw [he, hga'] at hga
              cases hga
              rw [hopen] at hcl
              cases hcl
            cases hav : checkedSub inflx consumed with
            | error e => simp only [hav] at h; cases h
            | ok avail =>
                simp only [hav] at h
                have hpres : ∀ (a : KarzanovArc),
                    (setArc g aid' a).arc_data.getD aid none = some arc := by
                  intro a
                  simp only [setArc]
                  rw [getD_set_ne _ _ _ _ _ hane]
                  exact hga
                split at h
                · exact ih _ _ _ _ _ h aid arc (hpres _) hcl
                · cases hps : checkedSub (min arc'.capacity avail) arc'.flow with
                  | error e => simp only [hps] at h; cases h
                  | ok delta =>
                      simp only [hps] at h
                      split at h
                      · cases hnd : (setArc g aid'
                            { arc' with flow := min arc'.capacity avail }).node_data.getD
                            nid none with
                        | none => simp only [hnd] at h; cases h
                        | some nd =>
                            simp only [hnd] at h
                            exact ih _ _ _ _ _ h aid arc (hpres _) hcl
                      · exact ih _ _ _ _ _ h aid arc (hpres _) hcl

theorem processNode_closed_frame {g : KNet} {nid : Nat} {g' : KNet}
    (h : processNode g nid = .ok g') :
    ∀ aid arc, g.arc_data.getD aid none = some arc → arc.opn = false →
      g'.arc_data.getD aid none = some arc := by
  intro aid arc hga hcl
  unfold processNode at h
  cases hi : incoming_flux_of_flow nid g with
  | error e => simp only [hi] at h; cases h
  | ok inflx =>
      simp only [hi] at h
      cases hc : consumedOf g (from_node g nid) 0 with
      | error e => simp only [hc] at h; cases h
      | ok consumed =>
          simp only [hc] at h
          cases hd : distribute g inflx (from_node g nid) consumed with
          | error e => simp only [hd] at h; cases h
          | ok p =>
              obtain ⟨g1, c1⟩ := p
              simp only [hd] at h
              cases h
              exact distribute_closed_frame _ _ _ _ _ _ hd aid arc hga hcl

theorem processLayerNodes_closed_frame :
    ∀ (layer : List Nat) (g g' : KNet),
      processLayerNodes g layer = .ok g' →
      ∀ aid arc, g.arc_data.getD aid none = some arc → arc.opn = false →
        g'.arc_data.getD aid none = some arc := by
  intro layer
  induction layer with
  | nil =>
      intro g g' h aid arc hga hcl
      simp only [processLayerNodes] at h
      cases h
      exact hga
  | cons nid rest ih =>
      intro g g' h aid arc hga hcl
      simp only [processLayerNodes] at h
      cases hp : processNode g nid with
      | error e => simp only [hp] at h; cases h
      | ok g1 =>
          simp only [hp] at h
          exact ih _ _ h aid arc
            (processNode_closed_frame hp aid arc hga hcl) hcl

theorem processLayers_closed_frame :
    ∀ (ls : List (List Nat)) (g g' : KNet),
      processLayers g ls = .ok g' →
      ∀ aid arc, g.arc_data.getD aid none = some arc → arc.opn = false →
        g'.arc_data.getD aid none = some arc := by
  intro ls
  induction ls with
  | nil =>
      intro g g' h aid arc hga hcl
      simp only [processLayers] at h
      cases h
      exact hga
  | cons layer rest ih =>
      intro g g' h aid arc hga hcl
      simp only [processLayers] at h
      cases hp : processLayerNodes g layer with
      | error e => simp only [hp] at h; cases h
      | ok g1 =>
          simp only [hp] at h
          exact ih _ _ h aid arc
            (processLayerNodes_closed_frame _ _ _ hp aid arc hga hcl) hcl

/-- C2: once closed, an arc is never re-raised by the per-node distribution
work of maximize-outgoing nor by balance-incoming — the only step that can
raise a closed arc's flow is the initial source-saturation of
maximize-outgoing, which rewrites exactly the live outgoing arcs of the
source.  Part one: a closed arc that is not among the source's live outgoing
arcs is left completely unchanged by a whole maximize-outgoing pass.  Part
two: balance-incoming never increases any arc's flow and never reopens a
closed arc. -/
theorem closed_arcs_never_raised :
    (∀ (src : Nat) (l0 : List Nat) (ltail : List (List Nat)) (start : Nat)
        (g g' : KNet),
        maximize_outgoing ((src :: l0) :: ltail) start g = .ok g' →
        ∀ aid arc, g.arc_data.getD aid none = some arc → arc.opn = false →
          aid ∉ (from_node g src).map Prod.snd →
          g'.arc_data.getD aid none = some arc)
    ∧ (∀ (layers : List (List Nat)) (g g' : KNet) (r : Option Nat),
        balance_incoming layers g = .ok (g', r) →
        ∀ aid arc, g.arc_data.getD aid none = some arc → arc.opn = false →
          ∃ arc', g'.arc_data.getD aid none = some arc'
            ∧ arc'.opn = false ∧ arc'.flow ≤ arc.flow) := by
  constructor
  · intro src l0 ltail start g g' h aid arc hga hcl hmem
    unfold maximize_outgoing at h
    simp only at h
    split at h
    · cases hsat : saturateArcs g (from_node g src) with
      | error e => simp only [hsat] at h; cases h
      | ok g1 =>
          simp only [hsat] at h
          have hga1 : g1.arc_data.getD aid none = some arc := by
            rw [saturateArcs_frame _ _ _ hsat aid hmem]
            exact hga
          exact processLayers_closed_frame _ _ _ h aid arc hga1 hcl
    · cases h
  · intro layers g g' r h aid arc hga hcl
    obtain ⟨hs, hb⟩ := balance_incoming_bal h
    obtain ⟨arc', hg', hc, hf, ho⟩ := hb aid arc hga
    exact ⟨arc', hg', ho hcl, hf⟩

/-- State of `netC1` after the first maximize/balance iteration, where arcs
0 and 2 are closed. -/
def w2pre : Except Err (KNet × List (List Nat)) :=
  match grouping_nodes_by_layer 0 4 (clean_network netC1) with
  | .error e => .error e
  | .ok (g1, layers) =>
      match maximize_outgoing layers 0 g1 with
      | .error e => .error e
      | .ok g2 =>
          match balance_incoming layers g2 with
          | .error e => .error e
          | .ok (g3, _) => .ok (g3, layers)

def w2g : KNet :=
  match w2pre with
  | .ok p => p.1
  | .error _ => GraphNetwork.new

def w2gm : KNet :=
  match maximize_outgoing [[0], [1, 2, 3], [4]] 0 w2g with
  | .ok g => g
  | .error _ => GraphNetwork.new

def w2gb : KNet :=
  match balance_incoming [[0], [1, 2, 3], [4]] w2g with
  | .ok p => p.1
  | .error _ => GraphNetwork.new

/-- Witness for C2 at a reachable concrete state: arc 2 of `w2g` (the arc
1 → 2 of `netC1` after one loop iteration) is closed and is not a source
outgoing arc, so the next maximize-outgoing pass leaves it untouched, and a
balance-incoming pass keeps it closed without raising its flow. -/
theorem closed_arcs_never_raised_witness :
    maximize_outgoing [[0], [1, 2, 3], [4]] 0 w2g = .ok w2gm
    ∧ w2g.arc_data.getD 2 none = some ⟨4, 0, false⟩
    ∧ (2 : Nat) ∉ (from_node w2g 0).map Prod.snd
    ∧ w2gm.arc_data.getD 2 none = some ⟨4, 0, false⟩
    ∧ balance_incoming [[0], [1, 2, 3], [4]] w2g = .ok (w2gb, some 0)
    ∧ (∃ arc', w2gb.arc_data.getD 2 none = some arc'
        ∧ arc'.opn = false ∧ arc'.flow ≤ (0 : Nat)) :=
  ⟨by decide, by decide, by decide,
    closed_arcs_never_raised.1 0 [] [[1, 2, 3], [4]] 0 w2g w2gm (by decide)
      2 ⟨4, 0, false⟩ (by decide) (by decide) (by decide),
    by decide,
    closed_arcs_never_raised.2 [[0], [1, 2, 3], [4]] w2g w2gb (some 0)
      (by decide) 2 ⟨4, 0, false⟩ (by decide) (by decide)⟩

/-! ## Properties of the stable insertion sort `isort` -/

variable {α : Type}

theorem insStep_parts (c : α → α → Ordering) (p : List α) (x : α) :
    (p.reverse.dropWhile (fun y => c y x = .gt)).reverse
      ++ (p.reverse.takeWhile (fun y => c y x = .gt)).reverse = p := by
  calc (p.reverse.dropWhile (fun y => c y x = .gt)).reverse
        ++ (p.reverse.takeWhile (fun y => c y x = .gt)).reverse
      = (p.reverse.takeWhile (fun y => c y x = .gt)
          ++ p.reverse.dropWhile (fun y => c y x = .gt)).reverse := by
        rw [List.reverse_append]
    _ = p.reverse.reverse := by rw [List.takeWhile_append_dropWhile]
    _ = p := List.reverse_reverse p

theorem insStep_perm (c : α → α → Ordering) (p : List α) (x : α) :
    List.Perm (insStep c p x) (x :: p) := by
  have h1 : List.Perm
      ((p.reverse.dropWhile (fun y => c y x = .gt)).reverse
        ++ x :: (p.reverse.takeWhile (fun y => c y x = .gt)).reverse)
      (x :: ((p.reverse.dropWhile (fun y => c y x = .gt)).reverse
        ++ (p.reverse.takeWhile (fun y => c y x = .gt)).reverse)) :=
    List.perm_middle
  rw [insStep_parts] at h1
  exact h1

theorem isort_perm_aux (c : α → α → Ordering) :
    ∀ (l acc : List α), List.Perm (l.foldl (insStep c) acc) (acc ++ l)
  | [], acc => by simp
  | x :: xs, acc => by
      have h1 := isort_perm_aux c xs (insStep c acc x)
      have h2 : List.Perm (insStep c acc x ++ xs) (acc ++ x :: xs) := by
        have h3 : List.Perm (insStep c acc x ++ xs) ((x :: acc) ++ xs) :=
          (insStep_perm c acc x).append_right xs
        have h4 : List.Perm ((x :: acc) ++ xs) (acc ++ x :: xs) :=
          List.perm_middle.symm
        exact h3.trans h4
      exact h1.trans h2

theorem isort_perm (c : α → α → Ordering) (l : List α) :
    List.Perm (isort c l) l := by
  simpa using isort_perm_aux c l []

theorem head_dropWhile_false {p : α → Bool} :
    ∀ (l : List α) (a : α), (l.dropWhile p).head? = some a → p a = false
  | [], a, h => by cases h
  | x :: xs, a, h => by
      by_cases hx : p x = true
      · rw [List.dropWhile_cons_of_pos hx] at h
        exact head_dropWhile_false xs a h
      · rw [List.dropWhile_cons_of_neg hx] at h
        cases h
        exact Bool.eq_false_iff.mpr hx

theorem mem_takeWhile_true {p : α → Bool} :
    ∀ (l : List α) (a : α), a ∈ l.takeWhile p → p a = true
  | [], a, h => by cases h
  | x :: xs, a, h => by
      by_cases hx : p x = true
      · rw [List.takeWhile_cons_of_pos hx] at h
        cases h with
        | head => exact hx
        | tail _ h2 => exact mem_takeWhile_true xs a h2
      · rw [List.takeWhile_cons_of_neg hx] at h
        cases h

theorem insStep_chain {c : α → α → Ordering}
    (hsym : ∀ a b, c a b = .gt → c b a = .lt) (p : List α) (x : α)
    (hch : List.Chain' (fun a b => c a b ≠ .gt) p) :
    List.Chain' (fun a b => c a b ≠ .gt) (insStep c p x) := by
  have hp := insStep_parts c p x
  rw [← hp] at hch
  rw [List.chain'_append] at hch
  obtain ⟨chA, chB, hlink⟩ := hch
  unfold insStep
  rw [List.chain'_append]
  refine ⟨chA, ?_, ?_⟩
  · rw [List.chain'_cons']
    refine ⟨?_, chB⟩
    intro y hy
    have hyB : y ∈ (p.reverse.takeWhile (fun z => c z x = .gt)).reverse :=
      List.mem_of_mem_head? hy
    rw [List.mem_reverse] at hyB
    have hgt : c y x = .gt := of_decide_eq_true
      (@mem_takeWhile_true _ (fun z => decide (c z x = Ordering.gt)) _ _ hyB)
    rw [hsym _ _ hgt]
    intro hc
    cases hc
  · intro a ha y hy
    simp only [List.head?_cons, Option.mem_def] at hy
    cases hy
    rw [List.getLast?_reverse] at ha
    have hfalse := head_dropWhile_false _ _ ha
    intro hc
    rw [hc] at hfalse
    simp at hfalse

theorem isort_chain_aux {c : α → α → Ordering}
    (hsym : ∀ a b, c a b = .gt → c b a = .lt) :
    ∀ (l acc : List α), List.Chain' (fun a b => c a b ≠ .gt) acc →
      List.Chain' (fun a b => c a b ≠ .gt) (l.foldl (insStep c) acc)
  | [], acc, h => h
  | x :: xs, acc, h =>
      isort_chain_aux hsym xs (insStep c acc x) (insStep_chain hsym acc x h)

theorem isort_chain {c : α → α → Ordering}
    (hsym : ∀ a b, c a b = .gt → c b a = .lt) (l : List α) :
    List.Chain' (fun a b => c a b ≠ .gt) (isort c l) :=
  isort_chain_aux hsym l [] List.chain'_nil

theorem pair_sublist_insStep {c : α → α → Ordering} {a b : α}
    (p : List α) (x : α) (h : List.Sublist [a, b] p) :
    List.Sublist [a, b] (insStep c p x) := by
  have hp := insStep_parts c p x
  unfold insStep
  rw [← hp] at h
  refine h.trans (List.Sublist.append_left ?_ _)
  exact List.sublist_cons_self x _

theorem mem_insStep_left {c : α → α → Ordering} {a : α} (p : List α) (x : α)
    (ha : a ∈ p) (hne : c a x ≠ .gt) :
    List.Sublist [a, x] (insStep c p x) := by
  have hp := insStep_parts c p x
  rw [← hp] at ha
  rw [List.mem_append] at ha
  have haA : a ∈ (p.reverse.dropWhile (fun z => c z x = .gt)).reverse := by
    cases ha with
    | inl h => exact h
    | inr h =>
        exfalso
        rw [List.mem_reverse] at h
        exact hne (of_decide_eq_true
          (@mem_takeWhile_true _ (fun z => decide (c z x = Ordering.gt)) _ _ h))
  unfold insStep
  have h1 : List.Sublist [a]
      (p.reverse.dropWhile (fun z => c z x = .gt)).reverse :=
    List.singleton_sublist.mpr haA
  have h2 : List.Sublist [x]
      (x :: (p.reverse.takeWhile (fun z => c z x = .gt)).reverse) :=
    List.singleton_sublist.mpr (List.mem_cons_self x _)
  exact List.Sublist.append h1 h2

theorem pair_sublist_append_singleton {a b x : α} :
    ∀ (l : List α), List.Sublist [a, b] (l ++ [x]) →
      List.Sublist [a, b] l ∨ (b = x ∧ a ∈ l)
  | [], h => by
      exfalso
      have := h.length_le
      simp at this
  | y :: l2, h => by
      rw [List.cons_append] at h
      cases h with
      | cons _ h2 =>
          cases pair_sublist_append_singleton l2 h2 with
          | inl hl => exact Or.inl (hl.cons y)
          | inr hr => exact Or.inr ⟨hr.1, List.mem_cons_of_mem y hr.2⟩
      | cons₂ _ h2 =>
          have hb : b ∈ l2 ++ [x] := List.singleton_sublist.mp h2
          rw [List.mem_append] at hb
          cases hb with
          | inl hbl =>
              exact Or.inl (List.Sublist.cons₂ a (List.singleton_sublist.mpr hbl))
          | inr hbx =>
              simp only [List.mem_singleton] at hbx
              exact Or.inr ⟨hbx, List.mem_cons_self a l2⟩

theorem isort_stable {c : α → α → Ordering} (l : List α) :
    ∀ a b, c a b = .eq → List.Sublist [a, b] l →
      List.Sublist [a, b] (isort c l) := by
  induction l using List.reverseRecOn with
  | nil =>
      intro a b _ h
      exact h
  | append_singleton l x ih =>
      intro a b heq h
      have hfold : isort c (l ++ [x]) = insStep c (isort c l) x := by
        unfold isort
        rw [List.foldl_append]
        rfl
      rw [hfold]
      cases pair_sublist_append_singleton l h with
      | inl hl => exact pair_sublist_insStep _ _ (ih a b heq hl)
      | inr hr =>
          obtain ⟨hbx, hal⟩ := hr
          subst hbx
          have ham : a ∈ isort c l := ((isort_perm c l).mem_iff).mpr hal
          exact mem_insStep_left _ _ ham (by rw [heq]; intro hc; cases hc)

/-! ## Claim C8: in-layer ordering -/

theorem layerCmp_gt_lt (g : KNet) (a b : Nat)
    (h : layerCmp g a b = .gt) : layerCmp g b a = .lt := by
  unfold layerCmp at h ⊢
  cases h1 : is_arc_in g a b <;> cases h2 : is_arc_in g b a <;>
    simp only [h1, h2] at h ⊢ <;> first | rfl | cases h

/-- C8 (amended): each layer produced by the layering pass is the stable
insertion sort of the collected layer under the arc comparator.  The result
is a permutation of the collected order; every pair of nodes *adjacent* in
the final order is ordered source-before-destination when a one-directional
live arc joins them (the comparator never answers `gt` on an adjacent pair);
and every pair the comparator calls equal — in particular every pair with no
one-directional arc between them — keeps its relative order from the
collection step.  The source-before-destination guarantee does not extend to
non-adjacent pairs (`same_layer_arc_unordered`). -/
theorem layer_sort_ordering :
    ∀ (s t : Nat) (g g' : KNet) (layers : List (List Nat)),
      grouping_nodes_by_layer s t g = .ok (g', layers) →
      ∃ L0, bfsLoop (g.node_data.length + 1) g [] [s] = .ok (g', L0)
        ∧ layers = L0.map (isort (layerCmp g'))
        ∧ ∀ la0, la0 ∈ L0 →
            List.Perm (isort (layerCmp g') la0) la0
            ∧ List.Chain' (fun a b => layerCmp g' a b ≠ .gt)
                (isort (layerCmp g') la0)
            ∧ ∀ a b, layerCmp g' a b = .eq →
                List.Sublist [a, b] la0 →
                List.Sublist [a, b] (isort (layerCmp g') la0) := by
  intro s t g g' layers h
  unfold grouping_nodes_by_layer at h
  split at h
  · cases h
  · cases hb : bfsLoop (g.node_data.length + 1) g [] [s] with
    | error e => simp only [hb] at h; cases h
    | ok p =>
        obtain ⟨g1, L0⟩ := p
        simp only [hb] at h
        split at h
        · cases h
        · cases h
          refine ⟨L0, rfl, rfl, ?_⟩
          intro la0 _
          exact ⟨isort_perm _ _, isort_chain (layerCmp_gt_lt g') la0,
            fun a b heq hsub => isort_stable la0 a b heq hsub⟩

/-- Witness for C8 (amended) at `netC8`. -/
theorem layer_sort_ordering_witness :
    ∃ L0, bfsLoop ((clean_network netC8).node_data.length + 1)
        (clean_network netC8) [] [0] = .ok (c8g, L0)
      ∧ [[0], [1, 2, 3], [4]] = L0.map (isort (layerCmp c8g))
      ∧ ∀ la0, la0 ∈ L0 →
          List.Perm (isort (layerCmp c8g) la0) la0
          ∧ List.Chain' (fun a b => layerCmp c8g a b ≠ .gt)
              (isort (layerCmp c8g) la0)
          ∧ ∀ a b, layerCmp c8g a b = .eq →
              List.Sublist [a, b] la0 →
              List.Sublist [a, b] (isort (layerCmp c8g) la0) :=
  layer_sort_ordering 0 4 (clean_network netC8) c8g [[0], [1, 2, 3], [4]]
    (by decide)

/-! ## Claim C6: each non-source node lands in at most one layer -/

def isGrouped (g : KNet) (v : Nat) : Bool :=
  match g.node_data.getD v none with
  | none => false
  | some nd => nd.grouped

theorem isGrouped_setNode_self {g : KNet} {v : Nat} {nd : KarzanovNode}
    (hnd : g.node_data.getD v none = some nd) (n : KarzanovNode)
    (hgr : n.grouped = true) :
    isGrouped (setNode g v n) v = true := by
  unfold isGrouped setNode
  simp only
  rw [getD_set_eq _ _ _ _ (getD_none_lt _ _ _ hnd)]
  exact hgr

theorem isGrouped_setNode_other {g : KNet} {v w : Nat} (n : KarzanovNode)
    (hne : w ≠ v) :
    isGrouped (setNode g v n) w = isGrouped g w := by
  unfold isGrouped setNode
  simp only
  rw [getD_set_ne _ _ _ _ _ hne]

theorem collectArcs_props :
    ∀ (arcs : List (Nat × Nat)) (g : KNet) (next : List Nat) (g' : KNet)
      (next' : List Nat),
      collectArcs g arcs next = .ok (g', next') →
      (∀ v, v ∈ next → isGrouped g v = true) →
      (∀ v, List.count v next ≤ 1) →
      (∀ v, isGrouped g v = true → isGrouped g' v = true)
      ∧ (∀ v, v ∈ next' → isGrouped g' v = true)
      ∧ (∀ v, List.count v next' ≤ 1)
      ∧ (∀ v, v ∈ next' → v ∈ next ∨ isGrouped g v = false) := by
  intro arcs
  induction arcs with
  | nil =>
      intro g next g' next' h h0 hc
      simp only [collectArcs] at h
      cases h
      exact ⟨fun v hv => hv, h0, hc, fun v hv => Or.inl hv⟩
  | cons e rest ih =>
      intro g next g' next' h h0 hc
      obtain ⟨dist, aid⟩ := e
      simp only [collectArcs] at h
      cases hnd : g.node_data.getD dist none with
      | none => simp only [hnd] at h; cases h
      | some nd =>
          simp only [hnd] at h
          split at h
          · exact ih _ _ _ _ h h0 hc
          · rename_i hngr
            have hdist : isGrouped g dist = false := by
              unfold isGrouped
              simp only [hnd]
              cases hg : nd.grouped
              · rfl
              · exact absurd hg hngr
            have hmono1 : ∀ v, isGrouped g v = true →
                isGrouped (setNode g dist { nd with grouped := true }) v
                  = true := by
              intro v hv
              by_cases hvq : v = dist
              · subst hvq
                exact isGrouped_setNode_self hnd _ rfl
              · rw [isGrouped_setNode_other _ hvq]
                exact hv
            have hdnotin : dist ∉ next := by
              intro hin
              rw [h0 dist hin] at hdist
              cases hdist
            have h0' : ∀ v, v ∈ next ++ [dist] →
                isGrouped (setNode g dist { nd with grouped := true }) v
                  = true := by
              intro v hv
              rw [List.mem_append] at hv
              cases hv with
              | inl hvn => exact hmono1 v (h0 v hvn)
              | inr hvd =>
                  simp only [List.mem_singleton] at hvd
                  subst hvd
                  exact isGrouped_setNode_self hnd _ rfl
            have hc' : ∀ v, List.count v (next ++ [dist]) ≤ 1 := by
              intro v
              rw [List.count_append]
              by_cases hvq : v = dist
              · subst hvq
                have : List.count v next = 0 :=
                  List.count_eq_zero_of_not_mem hdnotin
                simp [this]
              · have : List.count v [dist] = 0 :=
                  List.count_eq_zero_of_not_mem (by simp [hvq])
                rw [this]
                simpa using hc v
            obtain ⟨m1, m2, m3, m4⟩ := ih _ _ _ _ h h0' hc'
            refine ⟨fun v hv => m1 v (hmono1 v hv), m2, m3, ?_⟩
            intro v hv
            cases m4 v hv with
            | inl hvn =>
                rw [List.mem_append] at hvn
                cases hvn with
                | inl hq => exact Or.inl hq
                | inr hq =>
                    simp only [List.mem_singleton] at hq
                    subst hq
                    exact Or.inr hdist
            | inr hng =>
                right
                by_cases hvq : v = dist
                · subst hvq
                  exact hdist
                · rw [isGrouped_setNode_other _ hvq] at hng
                  exact hng

theorem collectLayer_props :
    ∀ (frontier : List Nat) (g : KNet) (next : List Nat) (g' : KNet)
      (next' : List Nat),
      collectLayer g frontier next = .ok (g', next') →
      (∀ v, v ∈ next → isGrouped g v = true) →
      (∀ v, List.count v next ≤ 1) →
      (∀ v, isGrouped g v = true → isGrouped g' v = true)
      ∧ (∀ v, v ∈ next' → isGrouped g' v = true)
      ∧ (∀ v, List.count v next' ≤ 1)
      ∧ (∀ v, v ∈ next' → v ∈ next ∨ isGrouped g v = false) := by
  intro frontier
  induction frontier with
  | nil =>
      intro g next g' next' h h0 hc
      simp only [collectLayer] at h
      cases h
      exact ⟨fun v hv => hv, h0, hc, fun v hv => Or.inl hv⟩
  | cons nid rest ih =>
      intro g next g' next' h h0 hc
      simp only [collectLayer] at h
      split at h
      · cases hca : collectArcs g (from_node g nid) next with
        | error e => simp only [hca] at h; cases h
        | ok p =>
            obtain ⟨g1, next1⟩ := p
            simp only [hca] at h
            obtain ⟨a1, a2, a3, a4⟩ := collectArcs_props _ _ _ _ _ hca h0 hc
            obtain ⟨b1, b2, b3, b4⟩ := ih _ _ _ _ h a2 a3
            refine ⟨fun v hv => b1 v (a1 v hv), b2, b3, ?_⟩
            intro v hv
            cases b4 v hv with
            | inl hvn =>
                cases a4 v hvn with
                | inl hq => exact Or.inl hq
                | inr hq => exact Or.inr hq
            | inr hng =>
                right
                cases hq : isGrouped g v
                · rfl
                · rw [a1 v hq] at hng
                  cases hng
      · cases h

theorem bfsLoop_count :
    ∀ (fuel : Nat) (g : KNet) (acc : List (List Nat)) (cur : List Nat)
      (g' : KNet) (L : List (List Nat)) (s : Nat),
      bfsLoop fuel g acc cur = .ok (g', L) →
      (∀ v, v ≠ s → List.count v (acc ++ [cur]).flatten ≤ 1) →
      (∀ v, v ≠ s → v ∈ (acc ++ [cur]).flatten → isGrouped g v = true) →
      ∀ v, v ≠ s → List.count v L.flatten ≤ 1 := by
  intro fuel
  induction fuel with
  | zero => intro g acc cur g' L s h hacc hgr; cases h
  | succ fuel ih =>
      intro g acc cur g' L s h hacc hgr
      simp only [bfsLoop] at h
      cases hcl : collectLayer g cur [] with
      | error e => simp only [hcl] at h; cases h
      | ok p =>
          obtain ⟨g1, next⟩ := p
          simp only [hcl] at h
          obtain ⟨m1, m2, m3, m4⟩ := collectLayer_props _ _ _ _ _ hcl
            (fun v hv => absurd hv (List.not_mem_nil v))
            (fun v => by simp)
          split at h
          · cases h
            exact hacc
          · refine ih _ _ _ _ _ _ h ?_ ?_
            · intro v hv
              rw [List.flatten_append, List.count_append]
              by_cases hvq : v ∈ next
              · have hng : isGrouped g v = false := by
                  cases m4 v hvq with
                  | inl hq => exact absurd hq (List.not_mem_nil v)
                  | inr hq => exact hq
                have hnot : v ∉ (acc ++ [cur]).flatten := by
                  intro hin
                  rw [hgr v hv hin] at hng
                  cases hng
                rw [List.count_eq_zero_of_not_mem hnot]
                have hn1 : List.count v [next].flatten ≤ 1 := by
                  simpa using m3 v
                simpa using hn1
              · have h0 : List.count v [next].flatten = 0 :=
                  List.count_eq_zero_of_not_mem (by simpa using hvq)
                rw [h0]
                simpa using hacc v hv
            · intro v hv hin
              rw [List.flatten_append] at hin
              rw [List.mem_append] at hin
              cases hin with
              | inl hold =>
                  exact m1 v (hgr v hv hold)
              | inr hnew =>
                  have : v ∈ next := by simpa using hnew
                  exact m2 v this

theorem count_flatten_map_isort (c : Nat → Nat → Ordering) :
    ∀ (L : List (List Nat)) (v : Nat),
      List.count v ((L.map (isort c)).flatten) = List.count v L.flatten
  | [], v => rfl
  | l :: L, v => by
      simp only [List.map_cons, List.flatten_cons, List.count_append]
      rw [(isort_perm c l).count_eq, count_flatten_map_isort c L]

/-- C6 (amended): every node other than the source appears in at most one
layer of the sequence produced by the layering pass.  The source itself is
placed in layer 0 without being marked grouped, and so can be collected a
second time (`source_in_two_layers`). -/
theorem nonsource_node_in_one_layer :
    ∀ (s t : Nat) (g g' : KNet) (layers : List (List Nat)),
      grouping_nodes_by_layer s t g = .ok (g', layers) →
      ∀ v, v ≠ s → List.count v layers.flatten ≤ 1 := by
  intro s t g g' layers h v hv
  unfold grouping_nodes_by_layer at h
  split at h
  · cases h
  · cases hb : bfsLoop (g.node_data.length + 1) g [] [s] with
    | error e => simp only [hb] at h; cases h
    | ok p =>
        obtain ⟨g1, L0⟩ := p
        simp only [hb] at h
        split at h
        · cases h
        · cases h
          rw [count_flatten_map_isort]
          refine bfsLoop_count _ _ _ _ _ _ s hb ?_ ?_ v hv
          · intro w hw
            have h0 : List.count w [s] = 0 :=
              List.count_eq_zero_of_not_mem (by simp [hw])
            simp [h0]
          · intro w hw hin
            simp at hin
            exact absurd hin hw

def c6g : KNet :=
  match grouping_nodes_by_layer 0 3 (clean_network netC6) with
  | .ok p => p.1
  | .error _ => GraphNetwork.new

/-- Witness for C6 (amended): in the layering of `netC6` the non-source
node 2 appears exactly once. -/
theorem nonsource_node_in_one_layer_witness :
    grouping_nodes_by_layer 0 3 (clean_network netC6)
      = .ok (c6g, [[0], [1], [0, 2], [3]])
    ∧ List.count 2 [[0], [1], [0, 2], [3]].flatten ≤ 1 :=
  ⟨by decide,
    nonsource_node_in_one_layer 0 3 (clean_network netC6) c6g
      [[0], [1], [0, 2], [3]] (by decide) 2 (by decide)⟩

/-! ## Claim C1: conservation on the no-deficiency exit.

The proof needs a well-formedness predicate tying the adjacency logs to the
endpoint records — every container built through the `add_node` / `connect`
interface satisfies it. -/

theorem getD_ge {β : Type} :
    ∀ (l : List β) (i : Nat) (d : β), l.length ≤ i → l.getD i d = d
  | [], i, d, _ => by simp [List.getD_nil]
  | x :: xs, 0, d, h => by simp at h
  | x :: xs, i + 1, d, h => by
      simp only [List.getD_cons_succ]
      exact getD_ge xs i d (by simpa using h)

/-- Every arc id logged as outgoing from `u` has `u` recorded as its from
endpoint. -/
def wf2P (g : KNet) : Prop :=
  ∀ u a, a ∈ g.arcs_from.getD u [] →
    (g.arc_connections.getD a default).frm = u

/-- Every arc id logged as incoming into `v` has `v` recorded as its into
endpoint. -/
def wf3P (g : KNet) : Prop :=
  ∀ v a, a ∈ g.arcs_into.getD v [] →
    (g.arc_connections.getD a default).into = v

/-- Every untombstoned arc whose from endpoint is live occurs in that
endpoint's outgoing log. -/
def wf4P (g : KNet) : Prop :=
  ∀ a, (g.arc_data.getD a none).isSome = true →
    is_node_in g (g.arc_connections.getD a default).frm = true →
    a ∈ g.arcs_from.getD (g.arc_connections.getD a default).frm []

def wfP (g : KNet) : Prop := wf2P g ∧ wf3P g ∧ wf4P g

/-- Decidable form of `wfP`, for concrete witnesses. -/
def wfB (g : KNet) : Bool :=
  ((List.range g.arcs_from.length).all (fun u =>
      (g.arcs_from.getD u []).all (fun a =>
        (g.arc_connections.getD a default).frm == u)))
  && ((List.range g.arcs_into.length).all (fun v =>
      (g.arcs_into.getD v []).all (fun a =>
        (g.arc_connections.getD a default).into == v)))
  && ((List.range g.arc_data.length).all (fun a =>
      !(g.arc_data.getD a none).isSome
      || !is_node_in g (g.arc_connections.getD a default).frm
      || (g.arcs_from.getD (g.arc_connections.getD a default).frm []).contains a))

theorem wfB_wfP {g : KNet} (h : wfB g = true) : wfP g := by
  unfold wfB at h
  rw [Bool.and_eq_true, Bool.and_eq_true] at h
  obtain ⟨⟨h2, h3⟩, h4⟩ := h
  rw [List.all_eq_true] at h2 h3 h4
  refine ⟨?_, ?_, ?_⟩
  · intro u a ha
    by_cases hu : u < g.arcs_from.length
    · have := h2 u (List.mem_range.mpr hu)
      rw [List.all_eq_true] at this
      exact Nat.eq_of_beq_eq_true (by simpa using this a ha)
    · rw [getD_ge _ _ _ (Nat.le_of_not_lt hu)] at ha
      cases ha
  · intro v a ha
    by_cases hv : v < g.arcs_into.length
    · have := h3 v (List.mem_range.mpr hv)
      rw [List.all_eq_true] at this
      exact Nat.eq_of_beq_eq_true (by simpa using this a ha)
    · rw [getD_ge _ _ _ (Nat.le_of_not_lt hv)] at ha
      cases ha
  · intro a hsome hlive
    by_cases ha : a < g.arc_data.length
    · have := h4 a (List.mem_range.mpr ha)
      rw [Bool.or_eq_true, Bool.or_eq_true] at this
      cases this with
      | inl hl =>
          cases hl with
          | inl hq => rw [hsome] at hq; cases hq
          | inr hq => rw [hlive] at hq; cases hq
      | inr hq => simpa [List.contains_eq_any_beq] using hq
    · rw [getD_ge _ _ _ (Nat.le_of_not_lt ha)] at hsome
      cases hsome

theorem wfP_of_sameShape {g g' : KNet} (hs : sameShape g g') (h : wfP g) :
    wfP g' := by
  obtain ⟨a1, a2, a3, a4, a5, a6, a7⟩ := hs
  obtain ⟨h2, h3, h4⟩ := h
  refine ⟨?_, ?_, ?_⟩
  · intro u a ha
    rw [a1] at ha
    rw [a3]
    exact h2 u a ha
  · intro v a ha
    rw [a2] at ha
    rw [a3]
    exact h3 v a ha
  · intro a hsome hlive
    rw [a7 a] at hsome
    rw [a3] at hlive ⊢
    rw [a1]
    rw [is_node_in_congr ⟨a1, a2, a3, a4, a5, a6, a7⟩] at hlive
    exact h4 a hsome hlive

theorem sameShape_clean_network (g : KNet) : sameShape g (clean_network g) := by
  refine ⟨rfl, rfl, rfl, by simp [clean_network], ?_, by simp [clean_network],
    ?_⟩
  · intro n
    simp only [clean_network]
    rw [getD_map_option]
    cases g.node_data.getD n none <;> rfl
  · intro a
    simp only [clean_network]
    rw [getD_map_option]
    cases g.arc_data.getD a none <;> rfl

theorem clean_network_flows_zero (g : KNet) :
    ∀ aid arc, (clean_network g).arc_data.getD aid none = some arc →
      arc.flow = 0 := by
  intro aid arc ha
  simp only [clean_network] at ha
  rw [getD_map_option] at ha
  cases hga : g.arc_data.getD aid none with
  | none => rw [hga] at ha; cases ha
  | some a =>
      rw [hga] at ha
      simp only [Option.map] at ha
      cases ha
      rfl

/-- Every arc carrying positive flow satisfies `T` (instantiated with:
"the arc's from endpoint lies in the layers"). -/
def flowsT (T : Nat → Prop) (g : KNet) : Prop :=
  ∀ aid arc, g.arc_data.getD aid none = some arc → 0 < arc.flow → T aid

theorem flowsT_of_bal {T : Nat → Prop} {g g' : KNet} (hs : sameShape g g')
    (hb : arcEvolveBal g g') (h : flowsT T g) : flowsT T g' := by
  intro aid arc' ha' hpos
  have hiso := hs.2.2.2.2.2.2 aid
  rw [ha'] at hiso
  cases hga : g.arc_data.getD aid none with
  | none => rw [hga] at hiso; cases hiso
  | some arc =>
      obtain ⟨arc'', hg'', _, hf, _⟩ := hb aid arc hga
      rw [ha'] at hg''
      cases hg''
      exact h aid arc hga (Nat.lt_of_lt_of_le hpos hf)

theorem flowsT_setArc {T : Nat → Prop} {g : KNet} {aid : Nat}
    {arc a : KarzanovArc} (hga : g.arc_data.getD aid none = some arc)
    (hT : 0 < a.flow → T aid) (h : flowsT T g) :
    flowsT T (setArc g aid a) := by
  intro j arcj hj hpos
  by_cases hjq : j = aid
  · subst hjq
    simp only [setArc] at hj
    rw [getD_set_eq _ _ _ _ (getD_none_lt _ _ _ hga)] at hj
    cases hj
    exact hT hpos
  · simp only [setArc] at hj
    rw [getD_set_ne _ _ _ _ _ hjq] at hj
    exact h j arcj hj hpos

theorem flowsT_setNode {T : Nat → Prop} {g : KNet} (nid : Nat)
    (n : KarzanovNode) (h : flowsT T g) : flowsT T (setNode g nid n) :=
  fun aid arc ha hpos => h aid arc ha hpos

theorem saturateArcs_flowsT {T : Nat → Prop} :
    ∀ (arcs : List (Nat × Nat)) (g g' : KNet),
      saturateArcs g arcs = .ok g' → (∀ p, p ∈ arcs → T p.2) →
      flowsT T g → flowsT T g' := by
  intro arcs
  induction arcs with
  | nil =>
      intro g g' h hT hf
      simp only [saturateArcs] at h
      cases h
      exact hf
  | cons e rest ih =>
      intro g g' h hT hf
      obtain ⟨nid, aid⟩ := e
      simp only [saturateArcs] at h
      cases hga : g.arc_data.getD aid none with
      | none => simp only [hga] at h; cases h
      | some arc =>
          simp only [hga] at h
          cases hcs : checkedSub arc.capacity arc.flow with
          | error e => simp only [hcs] at h; cases h
          | ok delta =>
              simp only [hcs] at h
              have hf1 : flowsT T (setArc g aid { arc with flow := arc.capacity }) :=
                flowsT_setArc hga (fun _ => hT (nid, aid) (List.mem_cons_self _ _)) hf
              cases hnd : (setArc g aid
                  { arc with flow := arc.capacity }).node_data.getD nid none with
              | none => simp only [hnd] at h; cases h
              | some nd =>
                  simp only [hnd] at h
                  split at h
                  · exact ih _ _ h (fun p hp => hT p (List.mem_cons_of_mem _ hp))
                      (flowsT_setNode _ _ hf1)
                  · exact ih _ _ h (fun p hp => hT p (List.mem_cons_of_mem _ hp)) hf1

theorem distribute_flowsT {T : Nat → Prop} :
    ∀ (arcs : List (Nat × Nat)) (g : KNet) (inflx consumed : Nat)
      (g' : KNet) (c' : Nat),
      distribute g inflx arcs consumed = .ok (g', c') →
      (∀ p, p ∈ arcs → T p.2) → flowsT T g → flowsT T g' := by
  intro arcs
  induction arcs with
  | nil =>
      intro g inflx consumed g' c' h hT hf
      simp only [distribute] at h
      cases h
      exact hf
  | cons e rest ih =>
      intro g inflx consumed g' c' h hT hf
      obtain ⟨nid, aid⟩ := e
      have hTr : ∀ p, p ∈ rest → T p.2 :=
        fun p hp => hT p (List.mem_cons_of_mem _ hp)
      simp only [distribute] at h
      cases hga : g.arc_data.getD aid none with
      | none => simp only [hga] at h; cases h
      | some arc =>
          simp only [hga] at h
          split at h
          · exact ih _ _ _ _ _ h hTr hf
          · cases hav : checkedSub inflx consumed with
            | error e => simp only [hav] at h; cases h
            | ok avail =>
                simp only [hav] at h
                split at h
                · refine ih _ _ _ _ _ h hTr ?_
                  exact flowsT_setArc hga (fun hpos => absurd hpos (by simp)) hf
                · cases hps : checkedSub (min arc.capacity avail) arc.flow with
                  | error e => simp only [hps] at h; cases h
                  | ok delta =>
                      simp only [hps] at h
                      have hf1 : flowsT T (setArc g aid
                          { arc with flow := min arc.capacity avail }) :=
                        flowsT_setArc hga
                          (fun _ => hT (nid, aid) (List.mem_cons_self _ _)) hf
                      split at h
                      · cases hnd : (setArc g aid
                            { arc with flow := min arc.capacity avail }).node_data.getD
                            nid none with
                        | none => simp only [hnd] at h; cases h
                        | some nd =>
                            simp only [hnd] at h
                            exact ih _ _ _ _ _ h hTr (flowsT_setNode _ _ hf1)
                      · exact ih _ _ _ _ _ h hTr hf1

theorem mem_from_node {g : KNet} {u : Nat} {p : Nat × Nat}
    (hp : p ∈ from_node g u) :
    p.2 ∈ g.arcs_from.getD u []
    ∧ (g.arc_data.getD p.2 none).isSome = true
    ∧ p.1 = (g.arc_connections.getD p.2 default).into := by
  unfold from_node at hp
  rw [List.mem_filterMap] at hp
  obtain ⟨a, ha, hfa⟩ := hp
  split at hfa
  · cases hfa
    exact ⟨ha, by assumption, rfl⟩
  · cases hfa

theorem mem_into_node {g : KNet} {v : Nat} {p : Nat × Nat}
    (hp : p ∈ into_node g v) :
    p.2 ∈ g.arcs_into.getD v []
    ∧ (g.arc_data.getD p.2 none).isSome = true
    ∧ p.1 = (g.arc_connections.getD p.2 default).frm := by
  unfold into_node at hp
  rw [List.mem_filterMap] at hp
  obtain ⟨a, ha, hfa⟩ := hp
  split at hfa
  · cases hfa
    exact ⟨ha, by assumption, rfl⟩
  · cases hfa

theorem processNode_flowsT {g : KNet} {nid : Nat} {g' : KNet} {S : List Nat}
    (h : processNode g nid = .ok g') (hwf : wf2P g) (hnid : nid ∈ S)
    (hf : flowsT (fun aid => (g.arc_connections.getD aid default).frm ∈ S) g) :
    flowsT (fun aid => (g.arc_connections.getD aid default).frm ∈ S) g' := by
  unfold processNode at h
  cases hi : incoming_flux_of_flow nid g with
  | error e => simp only [hi] at h; cases h
  | ok inflx =>
      simp only [hi] at h
      cases hc : consumedOf g (from_node g nid) 0 with
      | error e => simp only [hc] at h; cases h
      | ok consumed =>
          simp only [hc] at h
          cases hd : distribute g inflx (from_node g nid) consumed with
          | error e => simp only [hd] at h; cases h
          | ok p =>
              obtain ⟨g1, c1⟩ := p
              simp only [hd] at h
              cases h
              refine distribute_flowsT _ _ _ _ _ _ hd ?_ hf
              intro q hq
              obtain ⟨hmem, _, _⟩ := mem_from_node hq
              rw [hwf nid q.2 hmem]
              exact hnid

theorem processLayerNodes_flowsT {S : List Nat} :
    ∀ (layer : List Nat) (g g' : KNet),
      processLayerNodes g layer = .ok g' → wf2P g →
      (∀ nid, nid ∈ layer → nid ∈ S) →
      flowsT (fun aid => (g.arc_connections.getD aid default).frm ∈ S) g →
      flowsT (fun aid => (g.arc_connections.getD aid default).frm ∈ S) g' := by
  intro layer
  induction layer with
  | nil =>
      intro g g' h _ _ hf
      simp only [processLayerNodes] at h
      cases h
      exact hf
  | cons nid rest ih =>
      intro g g' h hwf hmem hf
      simp only [processLayerNodes] at h
      cases hp : processNode g nid with
      | error e => simp only [hp] at h; cases h
      | ok g1 =>
          simp only [hp] at h
          obtain ⟨hs1, _⟩ := processNode_max hp
          have hconn : g1.arc_connections = g.arc_connections := hs1.2.2.1
          have hwf1 : wf2P g1 := by
            intro u a ha
            rw [hs1.1] at ha
            rw [hconn]
            exact hwf u a ha
          have hf1 := processNode_flowsT hp hwf
            (hmem nid (List.mem_cons_self _ _)) hf
          have hf1' : flowsT
              (fun aid => (g1.arc_connections.getD aid default).frm ∈ S) g1 := by
            rw [hconn]
            exact hf1
          have hres := ih _ _ h hwf1
            (fun m hm => hmem m (List.mem_cons_of_mem _ hm)) hf1'
          rw [hconn] at hres
          exact hres

theorem processLayers_flowsT {S : List Nat} :
    ∀ (ls : List (List Nat)) (g g' : KNet),
      processLayers g ls = .ok g' → wf2P g →
      (∀ nid, (∃ layer, layer ∈ ls ∧ nid ∈ layer) → nid ∈ S) →
      flowsT (fun aid => (g.arc_connections.getD aid default).frm ∈ S) g →
      flowsT (fun aid => (g.arc_connections.getD aid default).frm ∈ S) g' := by
  intro ls
  induction ls with
  | nil =>
      intro g g' h _ _ hf
      simp only [processLayers] at h
      cases h
      exact hf
  | cons layer rest ih =>
      intro g g' h hwf hmem hf
      simp only [processLayers] at h
      cases hp : processLayerNodes g layer with
      | error e => simp only [hp] at h; cases h
      | ok g1 =>
          simp only [hp] at h
          obtain ⟨hs1, _⟩ := processLayerNodes_max _ _ _ hp
          have hconn : g1.arc_connections = g.arc_connections := hs1.2.2.1
          have hwf1 : wf2P g1 := by
            intro u a ha
            rw [hs1.1] at ha
            rw [hconn]
            exact hwf u a ha
          have hf1 := processLayerNodes_flowsT _ _ _ hp hwf
            (fun nid hn => hmem nid ⟨layer, List.mem_cons_self _ _, hn⟩) hf
          have hf1' : flowsT
              (fun aid => (g1.arc_connections.getD aid default).frm ∈ S) g1 := by
            rw [hconn]
            exact hf1
          have hres := ih _ _ h hwf1
            (fun nid hn => hmem nid ⟨hn.choose,
              List.mem_cons_of_mem _ hn.choose_spec.1, hn.choose_spec.2⟩) hf1'
          rw [hconn] at hres
          exact hres

theorem maximize_outgoing_flowsT {S : List Nat} {layers : List (List Nat)}
    {start : Nat} {g g' : KNet}
    (h : maximize_outgoing layers start g = .ok g') (hwf : wf2P g)
    (hmem : ∀ nid, (∃ layer, layer ∈ layers ∧ nid ∈ layer) → nid ∈ S)
    (hf : flowsT (fun aid => (g.arc_connections.getD aid default).frm ∈ S) g) :
    flowsT (fun aid => (g.arc_connections.getD aid default).frm ∈ S) g' := by
  unfold maximize_outgoing at h
  cases layers with
  | nil => cases h
  | cons first rest =>
      cases first with
      | nil => cases h
      | cons src l0 =>
          simp only at h
          split at h
          · cases hsat : saturateArcs g (from_node g src) with
            | error e => simp only [hsat] at h; cases h
            | ok g1 =>
                simp only [hsat] at h
                obtain ⟨hs1, _⟩ := saturateArcs_max _ _ _ hsat
                have hconn : g1.arc_connections = g.arc_connections := hs1.2.2.1
                have hsrc : src ∈ S :=
                  hmem src ⟨src :: l0, List.mem_cons_self _ _,
                    List.mem_cons_self _ _⟩
                have hf1 := saturateArcs_flowsT _ _ _ hsat
                  (fun p hp => by
                    obtain ⟨hmemp, _, _⟩ := mem_from_node hp
                    rw [hwf src p.2 hmemp]
                    exact hsrc) hf
                have hwf1 : wf2P g1 := by
                  intro u a ha
                  rw [hs1.1] at ha
                  rw [hconn]
                  exact hwf u a ha
                have hf1' : flowsT
                    (fun aid => (g1.arc_connections.getD aid default).frm ∈ S)
                    g1 := by
                  rw [hconn]
                  exact hf1
                have hres := processLayers_flowsT _ _ _ h hwf1
                  (fun nid hn => hmem nid ⟨hn.choose,
                    List.mem_of_mem_drop hn.choose_spec.1, hn.choose_spec.2⟩)
                  hf1'
                rw [hconn] at hres
                exact hres
          · cases h

/-! ## `balance_incoming` reporting no deficiency changes nothing -/

theorem balanceNode_false {g : KNet} {nid : Nat} {g' : KNet}
    (h : balanceNode g nid = .ok (g', false)) :
    g' = g ∧ incoming_flux_of_flow nid g = outgoing_flux_of_flow nid g := by
  unfold balanceNode at h
  cases ho : outgoing_flux_of_flow nid g with
  | error e => simp only [ho] at h; cases h
  | ok outflx =>
      simp only [ho] at h
      cases hi : incoming_flux_of_flow nid g with
      | error e => simp only [hi] at h; cases h
      | ok inflx =>
          simp only [hi] at h
          split at h
          · cases h
            rename_i heq
            exact ⟨rfl, by rw [heq]⟩
          · split at h
            · cases h
            · cases hnd : g.node_data.getD nid none with
              | none => simp only [hnd] at h; cases h
              | some nd =>
                  simp only [hnd] at h
                  cases hdr : drainStack g nd.stack inflx outflx with
                  | error e => simp only [hdr] at h; cases h
                  | ok p =>
                      obtain ⟨g1, rem⟩ := p
                      simp only [hdr] at h
                      cases hcl : closeArcs (setNode g1 nid { nd with stack := rem })
                          (into_node (setNode g1 nid { nd with stack := rem })
                            nid) with
                      | error e => simp only [hcl] at h; cases h
                      | ok g3 => simp only [hcl] at h; cases h

theorem balanceLayer_none :
    ∀ (layer : List Nat) (g : KNet) (ld : Option Nat) (d : Nat) (g' : KNet),
      balanceLayer g layer ld d = .ok (g', none) →
      g' = g ∧ ld = none
      ∧ ∀ nid, nid ∈ layer →
          incoming_flux_of_flow nid g = outgoing_flux_of_flow nid g := by
  intro layer
  induction layer with
  | nil =>
      intro g ld d g' h
      simp only [balanceLayer] at h
      cases h
      exact ⟨rfl, rfl, fun nid hn => absurd hn (List.not_mem_nil nid)⟩
  | cons nid rest ih =>
      intro g ld d g' h
      simp only [balanceLayer] at h
      cases hbn : balanceNode g nid with
      | error e => simp only [hbn] at h; cases h
      | ok p =>
          obtain ⟨g1, wasdef⟩ := p
          simp only [hbn] at h
          obtain ⟨hg1, hld1, hrest⟩ := ih _ _ _ _ h
          cases wasdef with
          | false =>
              obtain ⟨hgg, hflux⟩ := balanceNode_false hbn
              subst hgg
              subst hg1
              have hld : ld = none := by simpa using hld1
              refine ⟨rfl, hld, ?_⟩
              intro m hm
              cases hm with
              | head => exact hflux
              | tail _ hm2 => exact hrest m hm2
          | true =>
              exfalso
              cases ld with
              | none => simp at hld1
              | some x => simp at hld1

theorem balanceScan_none :
    ∀ (scan : List (Nat × List Nat)) (g : KNet) (ld : Option Nat) (g' : KNet),
      balanceScan g scan ld = .ok (g', none) →
      g' = g ∧ ld = none
      ∧ ∀ d layer, (d, layer) ∈ scan → ∀ nid, nid ∈ layer →
          incoming_flux_of_flow nid g = outgoing_flux_of_flow nid g := by
  intro scan
  induction scan with
  | nil =>
      intro g ld g' h
      simp only [balanceScan] at h
      cases h
      exact ⟨rfl, rfl, fun d layer hm => absurd hm (List.not_mem_nil _)⟩
  | cons e rest ih =>
      intro g ld g' h
      obtain ⟨d, layer⟩ := e
      simp only [balanceScan] at h
      cases hbl : balanceLayer g layer ld d with
      | error e => simp only [hbl] at h; cases h
      | ok p =>
          obtain ⟨g1, ld1⟩ := p
          simp only [hbl] at h
          obtain ⟨hg1, hld1, hrest⟩ := ih _ _ _ h
          subst hg1
          subst hld1
          obtain ⟨hgg, hld, hlay⟩ := balanceLayer_none _ _ _ _ _ hbl
          subst hgg
          refine ⟨rfl, hld, ?_⟩
          intro d2 layer2 hm nid hn
          cases hm with
          | head => exact hlay nid hn
          | tail _ hm2 => exact hrest d2 layer2 hm2 nid hn

theorem balance_incoming_none {layers : List (List Nat)} {g g' : KNet}
    (h : balance_incoming layers g = .ok (g', none)) :
    g' = g
    ∧ ∀ d layer, (d, layer) ∈ (layers.enum.drop 1).reverse.drop 1 →
        ∀ nid, nid ∈ layer →
          incoming_flux_of_flow nid g = outgoing_flux_of_flow nid g := by
  unfold balance_incoming at h
  cases hbs : balanceScan g ((layers.enum.drop 1).reverse.drop 1) none with
  | error e => simp only [hbs] at h; cases h
  | ok p =>
      obtain ⟨g1, ld⟩ := p
      cases ld with
      | some d =>
          simp only [hbs, Option.map] at h
          cases h
      | none =>
          simp only [hbs, Option.map] at h
          cases h
          obtain ⟨hg, _, hfacts⟩ := balanceScan_none _ _ _ _ hbs
          exact ⟨hg, hfacts⟩

/-! ## General loop lemma: invariants plus the shape of the exit -/

theorem maxflowLoop_cases (P : KNet → Prop) (layers : List (List Nat))
    (hm : ∀ st g g', maximize_outgoing layers st g = .ok g' → P g → P g')
    (hb : ∀ g g' r, balance_incoming layers g = .ok (g', r) → P g → P g') :
    ∀ (fuel start : Nat) (snap : List (Option Nat)) (g g' : KNet)
      (k : ExitKind),
      maxflowLoop fuel layers start snap g = .ok (g', k) → P g →
      P g' ∧ (k = .noDeficiency →
        ∃ gmid, balance_incoming layers gmid = .ok (g', none)) := by
  intro fuel
  induction fuel with
  | zero => intro start snap g g' k h hp; cases h
  | succ fuel ih =>
      intro start snap g g' k h hp
      simp only [maxflowLoop] at h
      cases hmx : maximize_outgoing layers start g with
      | error e => simp only [hmx] at h; cases h
      | ok g1 =>
          simp only [hmx] at h
          have hp1 := hm _ _ _ hmx hp
          cases hbl : balance_incoming layers g1 with
          | error e => simp only [hbl] at h; cases h
          | ok p =>
              obtain ⟨g2, r⟩ := p
              have hp2 := hb _ _ _ hbl hp1
              cases r with
              | none =>
                  simp only [hbl] at h
                  cases h
                  exact ⟨hp2, fun _ => ⟨g1, hbl⟩⟩
              | some st =>
                  simp only [hbl] at h
                  split at h
                  · cases h
                    exact ⟨hp2, fun hk => by cases hk⟩
                  · exact ih _ _ _ _ _ h hp2

/-! ## Breadth-first closure: layer nodes are live, marked nodes lie in the
layers, and every live out-neighbour of a layer node is marked. -/

theorem is_node_in_of_getD {g : KNet} {v : Nat} {nd : KarzanovNode}
    (h : g.node_data.getD v none = some nd) : is_node_in g v = true := by
  unfold is_node_in
  rw [h]
  simp [getD_none_lt _ _ _ h]

theorem clean_network_ungrouped (g : KNet) (v : Nat) :
    isGrouped (clean_network g) v = false := by
  unfold isGrouped
  simp only [clean_network]
  rw [getD_map_option]
  cases g.node_data.getD v none <;> rfl

theorem collectArcs_mark :
    ∀ (arcs : List (Nat × Nat)) (g : KNet) (next : List Nat) (g' : KNet)
      (next' : List Nat),
      collectArcs g arcs next = .ok (g', next') →
      (∀ v, isGrouped g v = true → isGrouped g' v = true)
      ∧ (∀ v, isGrouped g' v = true → isGrouped g v = true ∨ v ∈ next')
      ∧ (∀ p, p ∈ arcs → isGrouped g' p.1 = true)
      ∧ (∀ v, v ∈ next' → v ∈ next ∨ is_node_in g v = true)
      ∧ (∀ v, v ∈ next → v ∈ next') := by
  intro arcs
  induction arcs with
  | nil =>
      intro g next g' next' h
      simp only [collectArcs] at h
      cases h
      exact ⟨fun v hv => hv, fun v hv => Or.inl hv,
        fun p hp => absurd hp (List.not_mem_nil p),
        fun v hv => Or.inl hv, fun v hv => hv⟩
  | cons e rest ih =>
      intro g next g' next' h
      obtain ⟨dist, aid⟩ := e
      simp only [collectArcs] at h
      cases hnd : g.node_data.getD dist none with
      | none => simp only [hnd] at h; cases h
      | some nd =>
          simp only [hnd] at h
          split at h
          · rename_i hgr
            obtain ⟨i1, i2, i3, i4, i5⟩ := ih _ _ _ _ h
            have hgd : isGrouped g dist = true := by
              unfold isGrouped
              simp only [hnd]
              exact hgr
            refine ⟨i1, i2, ?_, i4, i5⟩
            intro p hp
            cases hp with
            | head => exact i1 dist hgd
            | tail _ hp2 => exact i3 p hp2
          · rename_i hngr
            obtain ⟨i1, i2, i3, i4, i5⟩ := ih _ _ _ _ h
            have hmono1 : ∀ v, isGrouped g v = true →
                isGrouped (setNode g dist { nd with grouped := true }) v
                  = true := by
              intro v hv
              by_cases hvq : v = dist
              · subst hvq
                exact isGrouped_setNode_self hnd _ rfl
              · rw [isGrouped_setNode_other _ hvq]
                exact hv
            have hdin : dist ∈ next' := i5 dist (by simp)
            refine ⟨fun v hv => i1 v (hmono1 v hv), ?_, ?_, ?_, ?_⟩
            · intro v hv
              cases i2 v hv with
              | inr hq => exact Or.inr hq
              | inl hq =>
                  by_cases hvq : v = dist
                  · subst hvq
                    exact Or.inr hdin
                  · rw [isGrouped_setNode_other _ hvq] at hq
                    exact Or.inl hq
            · intro p hp
              cases hp with
              | head => exact i1 dist (isGrouped_setNode_self hnd _ rfl)
              | tail _ hp2 => exact i3 p hp2
            · intro v hv
              cases i4 v hv with
              | inr hq =>
                  rw [is_node_in_congr (sameShape_setNode hnd)] at hq
                  exact Or.inr hq
              | inl hq =>
                  rw [List.mem_append] at hq
                  cases hq with
                  | inl hq2 => exact Or.inl hq2
                  | inr hq2 =>
                      simp only [List.mem_singleton] at hq2
                      subst hq2
                      exact Or.inr (is_node_in_of_getD hnd)
            · intro v hv
              exact i5 v (List.mem_append_left _ hv)

theorem collectLayer_mark :
    ∀ (frontier : List Nat) (g : KNet) (next : List Nat) (g' : KNet)
      (next' : List Nat),
      collectLayer g frontier next = .ok (g', next') →
      (∀ v, isGrouped g v = true → isGrouped g' v = true)
      ∧ (∀ v, isGrouped g' v = true → isGrouped g v = true ∨ v ∈ next')
      ∧ (∀ u, u ∈ frontier → ∀ p, p ∈ from_node g u →
          isGrouped g' p.1 = true)
      ∧ (∀ v, v ∈ next' → v ∈ next ∨ is_node_in g v = true)
      ∧ (∀ v, v ∈ next → v ∈ next') := by
  intro frontier
  induction frontier with
  | nil =>
      intro g next g' next' h
      simp only [collectLayer] at h
      cases h
      exact ⟨fun v hv => hv, fun v hv => Or.inl hv,
        fun u hu => absurd hu (List.not_mem_nil u),
        fun v hv => Or.inl hv, fun v hv => hv⟩
  | cons nid rest ih =>
      intro g next g' next' h
      simp only [collectLayer] at h
      split at h
      · cases hca : collectArcs g (from_node g nid) next with
        | error e => simp only [hca] at h; cases h
        | ok p =>
            obtain ⟨g1, next1⟩ := p
            simp only [hca] at h
            obtain ⟨a1, a2, a3, a4, a5⟩ := collectArcs_mark _ _ _ _ _ hca
            obtain ⟨b1, b2, b3, b4, b5⟩ := ih _ _ _ _ h
            obtain ⟨hs1, _⟩ := collectArcs_shape _ _ _ _ _ hca
            refine ⟨fun v hv => b1 v (a1 v hv), ?_, ?_, ?_, ?_⟩
            · intro v hv
              cases b2 v hv with
              | inr hq => exact Or.inr hq
              | inl hq =>
                  cases a2 v hq with
                  | inl hq2 => exact Or.inl hq2
                  | inr hq2 => exact Or.inr (b5 v hq2)
            · intro u hu p hp
              cases hu with
              | head => exact b1 p.1 (a3 p hp)
              | tail _ hu2 =>
                  rw [← from_node_congr hs1] at hp
                  exact b3 u hu2 p hp
            · intro v hv
              cases b4 v hv with
              | inr hq =>
                  rw [is_node_in_congr hs1] at hq
                  exact Or.inr hq
              | inl hq =>
                  cases a4 v hq with
                  | inl hq2 => exact Or.inl hq2
                  | inr hq2 => exact Or.inr hq2
            · intro v hv
              exact b5 v (a5 v hv)
      · cases h

theorem bfsLoop_mark :
    ∀ (fuel : Nat) (g : KNet) (acc : List (List Nat)) (cur : List Nat)
      (g' : KNet) (L : List (List Nat)),
      bfsLoop fuel g acc cur = .ok (g', L) →
      (∀ v, isGrouped g v = true → v ∈ (acc ++ [cur]).flatten) →
      (∀ u, u ∈ acc.flatten → ∀ p, p ∈ from_node g u →
        isGrouped g p.1 = true) →
      (∀ u, u ∈ L.flatten → ∀ p, p ∈ from_node g' u →
        isGrouped g' p.1 = true)
      ∧ (∀ v, isGrouped g' v = true → v ∈ L.flatten)
      ∧ (∀ v, v ∈ L.flatten →
          v ∈ (acc ++ [cur]).flatten ∨ is_node_in g' v = true) := by
  intro fuel
  induction fuel with
  | zero => intro g acc cur g' L h _ _; cases h
  | succ fuel ih =>
      intro g acc cur g' L h hI1 hI2
      simp only [bfsLoop] at h
      cases hcl : collectLayer g cur [] with
      | error e => simp only [hcl] at h; cases h
      | ok p =>
          obtain ⟨g1, next⟩ := p
          simp only [hcl] at h
          obtain ⟨c1, c2, c3, c4, c5⟩ := collectLayer_mark _ _ _ _ _ hcl
          obtain ⟨hs1, _⟩ := collectLayer_shape _ _ _ _ _ hcl
          split at h
          · rename_i hempty
            have hnext : next = [] := by
              cases next
              · rfl
              · simp at hempty
            subst hnext
            cases h
            refine ⟨?_, ?_, ?_⟩
            · intro u hu p hp
              rw [List.flatten_append, List.mem_append] at hu
              rw [from_node_congr hs1] at hp
              cases hu with
              | inl hacc => exact c1 p.1 (hI2 u hacc p hp)
              | inr hcur =>
                  have hucur : u ∈ cur := by simpa using hcur
                  exact c3 u hucur p hp
            · intro v hv
              cases c2 v hv with
              | inl hq => exact hI1 v hq
              | inr hq => exact absurd hq (List.not_mem_nil v)
            · intro v hv
              exact Or.inl hv
          · have hI1' : ∀ v, isGrouped g1 v = true →
                v ∈ ((acc ++ [cur]) ++ [next]).flatten := by
              intro v hv
              cases c2 v hv with
              | inl hq =>
                  have hmem := hI1 v hq
                  rw [List.flatten_append, List.mem_append]
                  left
                  exact hmem
              | inr hq =>
                  rw [List.flatten_append, List.mem_append]
                  right
                  simpa using hq
            have hI2' : ∀ u, u ∈ (acc ++ [cur]).flatten →
                ∀ p, p ∈ from_node g1 u → isGrouped g1 p.1 = true := by
              intro u hu p hp
              rw [List.flatten_append, List.mem_append] at hu
              rw [from_node_congr hs1] at hp
              cases hu with
              | inl hacc => exact c1 p.1 (hI2 u hacc p hp)
              | inr hcur =>
                  have hucur : u ∈ cur := by simpa using hcur
                  exact c3 u hucur p hp
            obtain ⟨k1, k2, k3⟩ := ih _ _ _ _ _ h hI1' hI2'
            refine ⟨k1, k2, ?_⟩
            intro v hv
            cases k3 v hv with
            | inr hq => exact Or.inr hq
            | inl hq =>
                rw [List.flatten_append, List.mem_append] at hq
                cases hq with
                | inl hold => exact Or.inl hold
                | inr hnew =>
                    have hvnext : v ∈ next := by simpa using hnew
                    cases c4 v hvnext with
                    | inl hq2 => exact absurd hq2 (List.not_mem_nil v)
                    | inr hq2 =>
                        right
                        obtain ⟨hs2, _⟩ := bfsLoop_shape _ _ _ _ _ _ h
                        have e2 := is_node_in_congr hs2 v
                        have e1 := is_node_in_congr hs1 v
                        rw [e2, e1]
                        exact hq2

/-! ## Structure of the layer list -/

theorem head_append_left {β : Type} :
    ∀ (l m : List β), l ≠ [] → (l ++ m).head? = l.head?
  | [], m, h => absurd rfl h
  | x :: xs, m, _ => rfl

theorem bfsLoop_head :
    ∀ (fuel : Nat) (g : KNet) (acc : List (List Nat)) (cur : List Nat)
      (g' : KNet) (L : List (List Nat)),
      bfsLoop fuel g acc cur = .ok (g', L) →
      L.head? = (acc ++ [cur]).head? := by
  intro fuel
  induction fuel with
  | zero => intro g acc cur g' L h; cases h
  | succ fuel ih =>
      intro g acc cur g' L h
      simp only [bfsLoop] at h
      cases hcl : collectLayer g cur [] with
      | error e => simp only [hcl] at h; cases h
      | ok p =>
          obtain ⟨g1, next⟩ := p
          simp only [hcl] at h
          split at h
          · cases h; rfl
          · have := ih _ _ _ _ _ h
            rw [this]
            rw [head_append_left ((acc ++ [cur])) [next] (by simp)]

theorem getLast_map {β γ : Type} (f : β → γ) :
    ∀ (l : List β), (l.map f).getLast? = l.getLast?.map f
  | [] => rfl
  | [x] => rfl
  | x :: y :: xs => by
      simp only [List.map_cons]
      rw [List.getLast?_cons_cons, List.getLast?_cons_cons]
      have := getLast_map f (y :: xs)
      simp only [List.map_cons] at this
      exact this

theorem isort_singleton (c : α → α → Ordering) (x : α) :
    isort c [x] = [x] := rfl

theorem layers_decomp {β : Type} :
    ∀ (L : List β) (h0 hl : β), L.head? = some h0 → L.getLast? = some hl →
      (L = [h0] ∧ h0 = hl) ∨ ∃ mid, L = h0 :: mid ++ [hl]
  | [], h0, hl, hh, _ => by cases hh
  | [x], h0, hl, hh, hlast => by
      cases hh
      cases hlast
      exact Or.inl ⟨rfl, rfl⟩
  | x :: y :: xs, h0, hl, hh, hlast => by
      cases hh
      rw [List.getLast?_cons_cons] at hlast
      cases layers_decomp (y :: xs) y hl rfl hlast with
      | inl hq =>
          obtain ⟨he, hyl⟩ := hq
          right
          refine ⟨[], ?_⟩
          rw [he, hyl]
          rfl
      | inr hq =>
          obtain ⟨mid, hmid⟩ := hq
          right
          refine ⟨y :: mid, ?_⟩
          rw [hmid]
          rfl

theorem mem_enumFrom_of_mem {β : Type} :
    ∀ (l : List β) (n : Nat) (a : β), a ∈ l →
      ∃ i, (i, a) ∈ List.enumFrom n l
  | [], n, a, h => absurd h (List.not_mem_nil a)
  | x :: xs, n, a, h => by
      cases h with
      | head => exact ⟨n, by simp [List.enumFrom]⟩
      | tail _ h2 =>
          obtain ⟨i, hi⟩ := mem_enumFrom_of_mem xs (n + 1) a h2
          exact ⟨i, by simp [List.enumFrom]; right; exact hi⟩

theorem enumFrom_append {β : Type} :
    ∀ (l₁ l₂ : List β) (n : Nat),
      List.enumFrom n (l₁ ++ l₂)
        = List.enumFrom n l₁ ++ List.enumFrom (n + l₁.length) l₂
  | [], l₂, n => by simp [List.enumFrom]
  | x :: xs, l₂, n => by
      rw [List.cons_append]
      simp only [List.enumFrom, List.length_cons]
      rw [enumFrom_append xs l₂ (n + 1)]
      have h1 : n + 1 + xs.length = n + (xs.length + 1) := by omega
      rw [h1, List.cons_append]

theorem scan_of_decomp (h0 hl : List Nat) (mid : List (List Nat)) :
    (((h0 :: mid ++ [hl]).enum.drop 1).reverse.drop 1)
      = (List.enumFrom 1 mid).reverse := by
  have henum : (h0 :: (mid ++ [hl])).enum
      = (0, h0) :: List.enumFrom 1 (mid ++ [hl]) := by
    rfl
  rw [List.cons_append, henum]
  simp only [List.drop_succ_cons, List.drop_zero]
  rw [enumFrom_append]
  rw [List.reverse_append]
  simp [List.enumFrom]

theorem mem_flatten_map_isort (c : Nat → Nat → Ordering)
    (L : List (List Nat)) (v : Nat) :
    v ∈ (L.map (isort c)).flatten ↔ v ∈ L.flatten := by
  induction L with
  | nil => rfl
  | cons l rest ih =>
      simp only [List.map_cons, List.flatten_cons, List.mem_append]
      rw [(isort_perm c l).mem_iff, ih]

theorem sumFlows_aux (g : KNet) :
    ∀ (arcs : List (Nat × Nat)) (acc : Nat),
      (∀ p, p ∈ arcs → ∀ a, g.arc_data.getD p.2 none = some a →
        a.flow = 0) →
      arcs.foldl (fun s p =>
        match g.arc_data.getD p.2 none with
        | some a => s + a.flow
        | none => s) acc = acc
  | [], acc, _ => rfl
  | p :: rest, acc, h => by
      simp only [List.foldl_cons]
      cases hga : g.arc_data.getD p.2 none with
      | none =>
          exact sumFlows_aux g rest acc
            (fun q hq => h q (List.mem_cons_of_mem _ hq))
      | some a =>
          have hz := h p (List.mem_cons_self _ _) a hga
          simp only [hga, hz, Nat.add_zero]
          exact sumFlows_aux g rest acc
            (fun q hq => h q (List.mem_cons_of_mem _ hq))

theorem sumFlows_zero (g : KNet) (arcs : List (Nat × Nat))
    (h : ∀ p, p ∈ arcs → ∀ a, g.arc_data.getD p.2 none = some a →
      a.flow = 0) : sumFlows g arcs = 0 :=
  sumFlows_aux g arcs 0 h

/-! ## Claim C1 (amended): conservation at the no-deficiency exit -/

theorem mem_from_node_of {g : KNet} {u aid : Nat}
    (hmem : aid ∈ g.arcs_from.getD u [])
    (hlive : (g.arc_data.getD aid none).isSome = true) :
    ((g.arc_connections.getD aid default).into, aid) ∈ from_node g u := by
  unfold from_node
  rw [List.mem_filterMap]
  exact ⟨aid, hmem, by rw [if_pos hlive]⟩

/-- C1 (amended): for every well-formed input network, if `maxflow`'s
fixpoint loop exits because `balance_incoming` reports no deficiency, then in
the returned network every live node other than the source and the sink has
incoming flux exactly equal to outgoing flux.  (The counterexample
`conservation_fails_at_stagnation` shows the unamended claim fails when the
loop exits through the stagnation guard instead.) -/
theorem conservation_on_no_deficiency_exit
    (fuel source_id sink_id : Nat) (g gF : KNet)
    (hwf : wfB g = true)
    (hrun : maxflowT fuel source_id sink_id g = .ok (gF, .noDeficiency)) :
    ∀ v, is_node_in gF v = true → v ≠ source_id → v ≠ sink_id →
      incoming_flux_of_flow v gF = outgoing_flux_of_flow v gF := by
  unfold maxflowT at hrun
  cases hgr : grouping_nodes_by_layer source_id sink_id (clean_network g) with
  | error e => simp only [hgr] at hrun; cases hrun
  | ok p =>
      obtain ⟨g1, layers⟩ := p
      simp only [hgr] at hrun
      unfold grouping_nodes_by_layer at hgr
      split at hgr
      · cases hgr
      · rename_i hsrcn
        cases hbfs : bfsLoop ((clean_network g).node_data.length + 1)
            (clean_network g) [] [source_id] with
        | error e => simp only [hbfs] at hgr; cases hgr
        | ok q =>
            obtain ⟨g1, L0⟩ := q
            simp only [hbfs] at hgr
            split at hgr
            · cases hgr
            · rename_i hlastn
              cases hgr
              have hsrc : is_node_in (clean_network g) source_id = true :=
                not_not.mp hsrcn
              have hlast : L0.getLast? = some [sink_id] := not_not.mp hlastn
              obtain ⟨hshape_cB, harc_cB⟩ := bfsLoop_shape _ _ _ _ _ _ hbfs
              have hshape_gB : sameShape g g1 :=
                sameShape_trans (sameShape_clean_network g) hshape_cB
              have hwfP1 : wfP g1 := wfP_of_sameShape hshape_gB (wfB_wfP hwf)
              have hm : ∀ st gx gx',
                  maximize_outgoing (L0.map (isort (layerCmp g1))) st gx
                    = .ok gx' →
                  sameShape g1 gx ∧
                    flowsT (fun aid =>
                      (g1.arc_connections.getD aid default).frm
                        ∈ (L0.map (isort (layerCmp g1))).flatten) gx →
                  sameShape g1 gx' ∧
                    flowsT (fun aid =>
                      (g1.arc_connections.getD aid default).frm
                        ∈ (L0.map (isort (layerCmp g1))).flatten) gx' := by
                intro st gx gx' hmx hPx
                obtain ⟨hsx, hfx⟩ := hPx
                have hwfx : wfP gx := wfP_of_sameShape hsx hwfP1
                have hconn : gx.arc_connections = g1.arc_connections :=
                  hsx.2.2.1
                have hfx' : flowsT (fun aid =>
                    (gx.arc_connections.getD aid default).frm
                      ∈ (L0.map (isort (layerCmp g1))).flatten) gx := by
                  rw [hconn]
                  exact hfx
                have hres := maximize_outgoing_flowsT hmx hwfx.1
                  (fun nid hn => List.mem_flatten.mpr
                    ⟨hn.choose, hn.choose_spec.1, hn.choose_spec.2⟩) hfx'
                rw [hconn] at hres
                exact ⟨sameShape_trans hsx (maximize_outgoing_max hmx).1, hres⟩
              have hb : ∀ gx gx' r,
                  balance_incoming (L0.map (isort (layerCmp g1))) gx
                    = .ok (gx', r) →
                  sameShape g1 gx ∧
                    flowsT (fun aid =>
                      (g1.arc_connections.getD aid default).frm
                        ∈ (L0.map (isort (layerCmp g1))).flatten) gx →
                  sameShape g1 gx' ∧
                    flowsT (fun aid =>
                      (g1.arc_connections.getD aid default).frm
                        ∈ (L0.map (isort (layerCmp g1))).flatten) gx' := by
                intro gx gx' r hbl hPx
                obtain ⟨hsx, hfx⟩ := hPx
                obtain ⟨hs', hbal⟩ := balance_incoming_bal hbl
                exact ⟨sameShape_trans hsx hs', flowsT_of_bal hs' hbal hfx⟩
              have hflows0 : ∀ aid arc,
                  g1.arc_data.getD aid none = some arc → arc.flow = 0 := by
                intro aid arc ha
                rw [harc_cB] at ha
                exact clean_network_flows_zero g aid arc ha
              have hinit : sameShape g1 g1 ∧
                  flowsT (fun aid =>
                    (g1.arc_connections.getD aid default).frm
                      ∈ (L0.map (isort (layerCmp g1))).flatten) g1 :=
                ⟨sameShape_refl g1, fun aid arc ha hpos =>
                  absurd (hflows0 aid arc ha) (Nat.pos_iff_ne_zero.mp hpos)⟩
              obtain ⟨⟨hsF, hfF⟩, hexit⟩ :=
                maxflowLoop_cases
                  (fun gx => sameShape g1 gx ∧
                    flowsT (fun aid =>
                      (g1.arc_connections.getD aid default).frm
                        ∈ (L0.map (isort (layerCmp g1))).flatten) gx)
                  (L0.map (isort (layerCmp g1)))
                  hm hb fuel 0 [] g1 gF .noDeficiency hrun hinit
              obtain ⟨gmid, hbal⟩ := hexit rfl
              obtain ⟨hgeq, hfacts⟩ := balance_incoming_none hbal
              subst hgeq
              obtain ⟨k1, k2, k3⟩ := bfsLoop_mark _ _ _ _ _ _ hbfs
                (fun w hw => by rw [clean_network_ungrouped] at hw; cases hw)
                (fun u hu => absurd hu (by simp))
              have hhead := bfsLoop_head _ _ _ _ _ _ hbfs
              simp only [List.nil_append, List.head?_cons] at hhead
              have hheadL : (L0.map (isort (layerCmp g1))).head?
                  = some [source_id] := by
                cases L0 with
                | nil => simp at hhead
                | cons l0 rest =>
                    simp only [List.head?_cons, Option.some.injEq] at hhead
                    subst hhead
                    rfl
              have hlastL : (L0.map (isort (layerCmp g1))).getLast?
                  = some [sink_id] := by
                rw [getLast_map, hlast]
                rfl
              intro v hlive hvs hvt
              by_cases hvin : v ∈ (L0.map (isort (layerCmp g1))).flatten
              · cases layers_decomp _ _ _ hheadL hlastL with
                | inl hq =>
                    rw [hq.1] at hvin
                    simp at hvin
                    exact absurd hvin hvs
                | inr hq =>
                    obtain ⟨mid, hmid⟩ := hq
                    rw [hmid] at hvin
                    rw [List.flatten_append, List.mem_append] at hvin
                    cases hvin with
                    | inr hq2 =>
                        simp at hq2
                        exact absurd hq2 hvt
                    | inl hq2 =>
                        rw [List.flatten_cons, List.mem_append] at hq2
                        cases hq2 with
                        | inl hq3 =>
                            simp at hq3
                            exact absurd hq3 hvs
                        | inr hq3 =>
                            obtain ⟨la, hla, hvla⟩ := List.mem_flatten.mp hq3
                            obtain ⟨i, hi⟩ := mem_enumFrom_of_mem mid 1 la hla
                            refine hfacts i la ?_ v hvla
                            rw [hmid, scan_of_decomp]
                            exact List.mem_reverse.mpr hi
              · have hwfF : wfP gF := wfP_of_sameShape hsF hwfP1
                have hconnF : gF.arc_connections = g1.arc_connections :=
                  hsF.2.2.1
                have hin0 : ∀ p, p ∈ into_node gF v → ∀ a,
                    gF.arc_data.getD p.2 none = some a → a.flow = 0 := by
                  intro p hp a hga
                  by_contra hne
                  have hT := hfF p.2 a hga (Nat.pos_of_ne_zero hne)
                  have huL0 : (g1.arc_connections.getD p.2 default).frm
                      ∈ L0.flatten :=
                    (mem_flatten_map_isort _ _ _).mp hT
                  have hulive : is_node_in g1
                      ((g1.arc_connections.getD p.2 default).frm) = true := by
                    cases k3 _ huL0 with
                    | inl hq4 =>
                        have he : (g1.arc_connections.getD p.2 default).frm
                            = source_id := by simpa using hq4
                        rw [he, is_node_in_congr hshape_cB]
                        exact hsrc
                    | inr hq4 => exact hq4
                  have halive : (g1.arc_data.getD p.2 none).isSome = true := by
                    rw [← hsF.2.2.2.2.2.2 p.2, hga]
                    rfl
                  have hmemu : p.2 ∈ g1.arcs_from.getD
                      ((g1.arc_connections.getD p.2 default).frm) [] :=
                    hwfP1.2.2 p.2 halive hulive
                  have hgrp := k1 _ huL0 _ (mem_from_node_of hmemu halive)
                  have hinto : (g1.arc_connections.getD p.2 default).into
                      = v := by
                    have h3 := hwfF.2.1 v p.2 (mem_into_node hp).1
                    rw [hconnF] at h3
                    exact h3
                  rw [hinto] at hgrp
                  exact hvin ((mem_flatten_map_isort _ _ _).mpr (k2 v hgrp))
                have hout0 : ∀ p, p ∈ from_node gF v → ∀ a,
                    gF.arc_data.getD p.2 none = some a → a.flow = 0 := by
                  intro p hp a hga
                  by_contra hne
                  have hT := hfF p.2 a hga (Nat.pos_of_ne_zero hne)
                  have hfrm : (g1.arc_connections.getD p.2 default).frm
                      = v := by
                    have h3 := hwfF.1 v p.2 (mem_from_node hp).1
                    rw [hconnF] at h3
                    exact h3
                  have hT2 : (g1.arc_connections.getD p.2 default).frm
                      ∈ (List.map (isort (layerCmp g1)) L0).flatten := hT
                  rw [hfrm] at hT2
                  exact hvin hT2
                unfold incoming_flux_of_flow outgoing_flux_of_flow
                rw [if_pos hlive, if_pos hlive]
                rw [sumFlows_zero gF _ hin0, sumFlows_zero gF _ hout0]

/-- The network `maxflow` returns on the first driver scenario (source 0,
sink 5): the loop exits with no deficiency after the flows settle. -/
def c1WitFinal : KNet :=
  { node_data := [some ⟨[], false⟩, some ⟨[(0, 2)], true⟩, some ⟨[(1, 2)], true⟩,
      some ⟨[(2, 2)], true⟩, some ⟨[(4, 2)], true⟩,
      some ⟨[(6, 2), (5, 3)], true⟩],
    arcs_into := [[], [0], [1], [2, 3], [4], [5, 6]],
    arcs_from := [[0, 1], [2], [3, 4], [5], [6], []],
    arc_data := [some ⟨2, 2, true⟩, some ⟨3, 3, false⟩, some ⟨2, 2, false⟩,
      some ⟨4, 1, false⟩, some ⟨2, 2, true⟩, some ⟨3, 3, true⟩,
      some ⟨2, 2, true⟩],
    arc_connections := [⟨0, 1⟩, ⟨0, 2⟩, ⟨1, 3⟩, ⟨2, 3⟩, ⟨2, 4⟩, ⟨3, 5⟩, ⟨4, 5⟩] }

/-- Witness for C1's amended theorem: on the first driver network the loop
exits with no deficiency, and the interior node 3 conserves flow. -/
theorem conservation_on_no_deficiency_exit_witness :
    wfB netScen1 = true
    ∧ maxflowT 20 0 5 netScen1 = .ok (c1WitFinal, .noDeficiency)
    ∧ is_node_in c1WitFinal 3 = true
    ∧ incoming_flux_of_flow 3 c1WitFinal = outgoing_flux_of_flow 3 c1WitFinal :=
  ⟨by decide, by decide, by decide,
    conservation_on_no_deficiency_exit 20 0 5 netScen1 c1WitFinal
      (by decide) (by decide) 3 (by decide) (by decide) (by decide)⟩
